import Mathlib

/-!
# Verification of the gluon VM value heap and deep-clone algorithm

Shallow embedding of `src/vm/src/value.rs` (runtime values, heap object
kinds, placement definitions, the traversal contract and the
cross-generation `deep_clone` algorithm) and of the marshalling code
generated by the derive macro in `src/codegen/src/getable.rs`.

Heap pointers (`GcPtr`) are modelled as an address paired with the
generation index of the heap arena that owns the referent; memory is an
association list from addresses to heap objects.  The mutable state
threaded through `deep_clone` (the `visited` map and the target `Gc`)
is passed explicitly.  Recursion through the heap is fuel-indexed:
exhaustion of fuel is the distinguished outcome `Res.outOfFuel`, and
`Res.stuck` models executions the Rust source declares impossible (the
`Ok(_) => unreachable!()` arms and dereferences of dangling pointers).
-/

namespace Gluon

/-- Address identifying a heap cell. -/
abbrev Addr := Nat

/-- `VMTag` of a data value. -/
abbrev VMTag := Nat

/-- `VMInt`, the integer payload type. -/
abbrev VMInt := Int

/-- `GcPtr<T>`: an identity-bearing handle carrying the address of the
referent and the generation index of the heap arena that allocated it
(reported by `generation()`). -/
structure GcPtr where
  addr : Addr
  gen : Nat
deriving DecidableEq

/-- `enum Value` from `value.rs`: the tagged runtime value union.  The
`f64` payload of `Float` is modelled as an opaque bit pattern; none of
the verified claims depend on floating-point semantics. -/
inductive Value where
  | Int : VMInt → Value
  | Float : Nat → Value
  | String : GcPtr → Value
  | Data : GcPtr → Value
  | Function : GcPtr → Value
  | Closure : GcPtr → Value
  | PartialApplication : GcPtr → Value
  | Userdata : GcPtr → Value
  | Thread : GcPtr → Value
deriving DecidableEq

/-- `enum Callable`: a closure reference or a native (extern) function
reference. -/
inductive Callable where
  | Closure : GcPtr → Callable
  | Extern : GcPtr → Callable
deriving DecidableEq

/-- The heap object kinds of `value.rs`.  `bytecode` (compiled-function
metadata), `externFn`, `userObj` and `threadObj` payloads are opaque to
the deep-clone algorithm, which never reads them. -/
inductive HeapObj where
  | str : List Nat → HeapObj
  | dataStruct : VMTag → List Value → HeapObj
  | closureData : GcPtr → List Value → HeapObj
  | appData : Callable → List Value → HeapObj
  | bytecode : HeapObj
  | externFn : HeapObj
  | userObj : HeapObj
  | threadObj : HeapObj
deriving DecidableEq

/-- Memory: an association list from addresses to heap objects. -/
abbrev Mem := List (Addr × HeapObj)

/-- Look an address up in memory. -/
def lookupMem (m : Mem) (a : Addr) : Option HeapObj :=
  match m with
  | [] => none
  | (b, o) :: rest => if a = b then some o else lookupMem rest a

/-- Overwrite the object stored at an (existing) address. -/
def setMem (m : Mem) (a : Addr) (o : HeapObj) : Mem :=
  m.map fun q => if q.1 = a then (a, o) else q

/-- The target collector handle `Gc`: its memory, its generation index
(`Gc::generation`) and the next free address. -/
structure Gc where
  mem : Mem
  gen : Nat
  next : Addr
deriving DecidableEq

/-- `Gc::alloc` handed an already-initialized object (the result of a
placement definition's `initialize`): reserve a fresh address in this
collector's generation and store the object there. -/
def Gc.allocObj (gc : Gc) (o : HeapObj) : GcPtr × Gc :=
  (⟨gc.next, gc.gen⟩, ⟨(gc.next, o) :: gc.mem, gc.gen, gc.next + 1⟩)

/-! ## Placement definitions (`DataDef` implementors)

The byte-size constants model `size_of::<GcPtr<BytecodeFunction>>()`,
`size_of::<usize>()`, `size_of::<Callable>()` and
`Array::<Value>::size_of(n)` (header plus `n` inline elements); the
concrete layout lives in the out-of-tree `gc`/`array` modules, but the
claims under verification depend only on the two-phase structure
`header + element * count`, not on the numeric values. -/

def sizeOfGcPtrBytecodeFunction : Nat := 8

def sizeOfUsize : Nat := 8

def sizeOfCallable : Nat := 16

/-- `Array::<Value>::size_of(n)`: header plus `n` inline elements. -/
def arrayValueSizeOf (n : Nat) : Nat := 8 + 16 * n

/-- `Def { tag, elems }`: placement definition for data values. -/
structure Def where
  tag : VMTag
  elems : List Value
deriving DecidableEq

/-- `Def::size`. -/
def Def.size (d : Def) : Nat := sizeOfUsize + arrayValueSizeOf d.elems.length

/-- `Def::initialize`: writes the tag and copies `elems` in order into
the trailing inline array. -/
def Def.initObj (d : Def) : HeapObj := .dataStruct d.tag d.elems

/-- `ClosureDataDef(function, upvalues)`. -/
structure ClosureDataDef where
  function : GcPtr
  upvars : List Value
deriving DecidableEq

/-- `ClosureDataDef::size`. -/
def ClosureDataDef.size (d : ClosureDataDef) : Nat :=
  sizeOfGcPtrBytecodeFunction + arrayValueSizeOf d.upvars.length

/-- `ClosureDataDef::initialize`: stores the function reference and
copies the upvalue slice in order. -/
def ClosureDataDef.initObj (d : ClosureDataDef) : HeapObj :=
  .closureData d.function d.upvars

/-- `ClosureInitDef(function, count)`. -/
structure ClosureInitDef where
  function : GcPtr
  count : Nat
deriving DecidableEq

/-- `ClosureInitDef::size`. -/
def ClosureInitDef.size (d : ClosureInitDef) : Nat :=
  sizeOfGcPtrBytecodeFunction + arrayValueSizeOf d.count

/-- `ClosureInitDef::initialize`: sets the upvalue length to `count` and
writes `Int(0)` into every slot (`ptr::write(var, Int(0))`). -/
def ClosureInitDef.initObj (d : ClosureInitDef) : HeapObj :=
  .closureData d.function (List.replicate d.count (.Int 0))

/-- `PartialApplicationDataDef(callable, args)`. -/
structure PartialApplicationDataDef where
  function : Callable
  args : List Value
deriving DecidableEq

/-- `PartialApplicationDataDef::size`. -/
def PartialApplicationDataDef.size (d : PartialApplicationDataDef) : Nat :=
  sizeOfCallable + arrayValueSizeOf d.args.length

/-- `PartialApplicationDataDef::initialize`: stores the callable and
copies the argument slice in call order. -/
def PartialApplicationDataDef.initObj (d : PartialApplicationDataDef) : HeapObj :=
  .appData d.function d.args

/-- `Value::generation` (`value.rs`): 0 for `Int` and `Float`, the
owning arena's generation index for every heap variant. -/
def Value.generation : Value → Nat
  | .String p => p.gen
  | .Data p => p.gen
  | .Function p => p.gen
  | .Closure p => p.gen
  | .PartialApplication p => p.gen
  | .Userdata p => p.gen
  | .Thread p => p.gen
  | .Int _ => 0
  | .Float _ => 0

/-! ## The deep-clone algorithm -/

/-- The visited map: keyed by the source object's address, holding the
previously produced `Value`. -/
abbrev Visited := List (Addr × Value)

/-- Look a source address up in the visited map. -/
def lookupVisited (vs : Visited) (a : Addr) : Option Value :=
  match vs with
  | [] => none
  | (b, w) :: rest => if a = b then some w else lookupVisited rest a

/-- The mutable state threaded through `deep_clone`: the call-local
visited map and the target collector. -/
structure CloneSt where
  visited : Visited
  gc : Gc
deriving DecidableEq

/-- Result of a fuel-indexed computation: success, the VM error
(`Error::Message`), a `stuck` outcome modelling executions the source
declares impossible (`unreachable!()` arms, dangling dereferences), or
fuel exhaustion (an artifact of the embedding, never of the code). -/
inductive Res (α : Type) where
  | ok : α → Res α
  | err : String → Res α
  | stuck : Res α
  | outOfFuel : Res α
deriving DecidableEq

/-- The uncloneable-kind error message of `deep_clone`. -/
def uncloneableMsg : String :=
  "Threads, Userdata and Extern functions cannot be deep cloned yet"

/-- Result of `deep_clone_ptr`: an occupied visited entry returns the
previously produced `Value` (state untouched); a vacant entry allocates
the shell, registers `mk newPtr` under the source address *before* any
recursion, and returns the fresh pointer with the updated state.
`badDeref` models dereferencing a pointer to a missing or wrong-kind
object (impossible in the typed Rust source). -/
inductive PtrRes where
  | visitedHit : Value → PtrRes
  | fresh : GcPtr → CloneSt → PtrRes
  | badDeref : PtrRes
deriving DecidableEq

/-- `deep_clone_ptr` (`value.rs`): check the visited map by source
address; on a hit return the recorded value, otherwise run the
allocation (`obj` is the initialized shell the closure would allocate,
`none` when the source pointer cannot be dereferenced) and record the
new reference before returning it. -/
def deepClonePtr (p : GcPtr) (s : CloneSt) (mk : GcPtr → Value) (obj : Option HeapObj) :
    PtrRes :=
  match lookupVisited s.visited p.addr with
  | some v => .visitedHit v
  | none =>
    match obj with
    | some o =>
      let pr := s.gc.allocObj o
      .fresh pr.1 ⟨(p.addr, mk pr.1) :: s.visited, pr.2⟩
    | none => .badDeref

/-- `deep_clone_str`: on a visited hit return the stored value verbatim
(`.unwrap_or_else(String)` takes the `Ok` value as is); otherwise
allocate a copy of the bytes in the target heap. -/
def deepCloneStr (p : GcPtr) (s : CloneSt) : Res (Value × CloneSt) :=
  let src := lookupMem s.gc.mem p.addr
  let obj : Option HeapObj :=
    match src with
    | some (.str bs) => some (.str bs)
    | _ => none
  match deepClonePtr p s Value.String obj with
  | .visitedHit v => .ok (v, s)
  | .fresh np s1 => .ok (.String np, s1)
  | .badDeref => .stuck

/-- The field-patch loop shared by `deep_clone_data`,
`deep_clone_closure` and `deep_clone_app`: overwrite each shell slot
with the deep clone of the corresponding source slot, in source order,
propagating any failure (`try!`). -/
def cloneSlots (rec : Value → CloneSt → Res (Value × CloneSt)) :
    List Value → CloneSt → Res (List Value × CloneSt)
  | [], s => .ok ([], s)
  | v :: vs, s =>
    match rec v s with
    | .ok (rv, s1) =>
      match cloneSlots rec vs s1 with
      | .ok (rvs, s2) => .ok (rv :: rvs, s2)
      | .err e => .err e
      | .stuck => .stuck
      | .outOfFuel => .outOfFuel
    | .err e => .err e
    | .stuck => .stuck
    | .outOfFuel => .outOfFuel

/-- Replace the object at `a` (used for the field-wise patch of a
freshly allocated shell). -/
def patchSt (s : CloneSt) (a : Addr) (o : HeapObj) : CloneSt :=
  ⟨s.visited, ⟨setMem s.gc.mem a o, s.gc.gen, s.gc.next⟩⟩

/-- `deep_clone_data`: shell allocation via `deep_clone_ptr` with
`Def { tag, elems: &data.fields }` (non-recursive fields copied, slots
filled with the verbatim source values), then the field-wise recursive
clone.  A visited hit that stores a non-`Data` value is the
`Ok(_) => unreachable!()` arm, modelled as `stuck`. -/
def deepCloneData (rec : Value → CloneSt → Res (Value × CloneSt)) (p : GcPtr)
    (s : CloneSt) : Res (GcPtr × CloneSt) :=
  let src := lookupMem s.gc.mem p.addr
  let obj : Option HeapObj :=
    match src with
    | some (.dataStruct tag fields) => some (Def.initObj (Def.mk tag fields))
    | _ => none
  match deepClonePtr p s Value.Data obj with
  | .visitedHit (Value.Data q) => .ok (q, s)
  | .visitedHit _ => .stuck
  | .badDeref => .stuck
  | .fresh np s1 =>
    match src with
    | some (.dataStruct tag fields) =>
      match cloneSlots rec fields s1 with
      | .ok (nf, s2) => .ok (np, patchSt s2 np.addr (.dataStruct tag nf))
      | .err e => .err e
      | .stuck => .stuck
      | .outOfFuel => .outOfFuel
    | _ => .stuck

/-- `deep_clone_closure`: shell via `ClosureDataDef(data.function,
&data.upvars)` (the compiled-function reference is copied verbatim),
then the upvalue-wise recursive clone. -/
def deepCloneClosure (rec : Value → CloneSt → Res (Value × CloneSt)) (p : GcPtr)
    (s : CloneSt) : Res (GcPtr × CloneSt) :=
  let src := lookupMem s.gc.mem p.addr
  let obj : Option HeapObj :=
    match src with
    | some (.closureData f us) => some (ClosureDataDef.initObj (ClosureDataDef.mk f us))
    | _ => none
  match deepClonePtr p s Value.Closure obj with
  | .visitedHit (Value.Closure q) => .ok (q, s)
  | .visitedHit _ => .stuck
  | .badDeref => .stuck
  | .fresh np s1 =>
    match src with
    | some (.closureData f us) =>
      match cloneSlots rec us s1 with
      | .ok (nus, s2) => .ok (np, patchSt s2 np.addr (.closureData f nus))
      | .err e => .err e
      | .stuck => .stuck
      | .outOfFuel => .outOfFuel
    | _ => .stuck

/-- `deep_clone_app`: shell via `PartialApplicationDataDef(data.function,
&data.arguments)` (the callable is copied verbatim), then the
argument-wise recursive clone. -/
def deepCloneApp (rec : Value → CloneSt → Res (Value × CloneSt)) (p : GcPtr)
    (s : CloneSt) : Res (GcPtr × CloneSt) :=
  let src := lookupMem s.gc.mem p.addr
  let obj : Option HeapObj :=
    match src with
    | some (.appData c args) => some (PartialApplicationDataDef.initObj (PartialApplicationDataDef.mk c args))
    | _ => none
  match deepClonePtr p s Value.PartialApplication obj with
  | .visitedHit (Value.PartialApplication q) => .ok (q, s)
  | .visitedHit _ => .stuck
  | .badDeref => .stuck
  | .fresh np s1 =>
    match src with
    | some (.appData c args) =>
      match cloneSlots rec args s1 with
      | .ok (nargs, s2) => .ok (np, patchSt s2 np.addr (.appData c nargs))
      | .err e => .err e
      | .stuck => .stuck
      | .outOfFuel => .outOfFuel
    | _ => .stuck

/-- Wrap a pointer result back into a `Value` (`.map(Value::Data)` and
friends). -/
def mapGc (mk : GcPtr → Value) : Res (GcPtr × CloneSt) → Res (Value × CloneSt)
  | .ok (q, s) => .ok (mk q, s)
  | .err e => .err e
  | .stuck => .stuck
  | .outOfFuel => .outOfFuel

/-- `deep_clone` (`value.rs` 472–498), fuel-indexed.  Values whose
generation is at most the target collector's generation are returned
unchanged; `Function`, `Userdata` and `Thread` values fail with the
uncloneable-kind error; primitives are returned unchanged; heap
variants are rehomed through the kind-specific helpers. -/
def deepClone : Nat → Value → CloneSt → Res (Value × CloneSt)
  | 0, _, _ => .outOfFuel
  | fuel + 1, v, s =>
    if v.generation ≤ s.gc.gen then .ok (v, s)
    else
      match v with
      | .String p => deepCloneStr p s
      | .Data p => mapGc Value.Data (deepCloneData (deepClone fuel) p s)
      | .Closure p => mapGc Value.Closure (deepCloneClosure (deepClone fuel) p s)
      | .PartialApplication p =>
        mapGc Value.PartialApplication (deepCloneApp (deepClone fuel) p s)
      | .Function _ => .err uncloneableMsg
      | .Userdata _ => .err uncloneableMsg
      | .Thread _ => .err uncloneableMsg
      | .Int i => .ok (.Int i, s)
      | .Float x => .ok (.Float x, s)

/-! ## Equality (`PartialEq`)

`Value` derives `PartialEq`, comparing same-variant payloads with the
payload's `PartialEq`.  The `PartialEq` of `GcPtr<T>` itself lives in
the out-of-tree `gc` module; modelled from the spec (strings compare
by content, data by structural equality) it compares the referents.
The in-tree payload impls are: `ClosureData::eq`,
`PartialApplicationData::eq` and `ExternFunction::eq` return `false`
unconditionally; `DataStruct::eq` is equal tag plus element-wise equal
fields; `Userdata::eq` compares the referent addresses.  Structural
recursion through (possibly cyclic) data is fuel-indexed, exactly as
the Rust comparison recurses. -/

def valueEq (m : Mem) : Nat → Value → Value → Bool
  | _, .Int a, .Int b => a == b
  | _, .Float a, .Float b => a == b
  | _, .String p, .String q =>
    match lookupMem m p.addr, lookupMem m q.addr with
    | some (.str xs), some (.str ys) => xs == ys
    | _, _ => false
  | fuel + 1, .Data p, .Data q =>
    (match lookupMem m p.addr, lookupMem m q.addr with
     | some (.dataStruct t fs), some (.dataStruct u gs) =>
       t == u && fs.length == gs.length &&
         (List.zip fs gs).all fun w => valueEq m fuel w.1 w.2
     | _, _ => false)
  | 0, .Data _, .Data _ => false
  | _, .Closure _, .Closure _ => false
  | _, .PartialApplication _, .PartialApplication _ => false
  | _, .Function _, .Function _ => false
  | _, .Userdata p, .Userdata q => p.addr == q.addr
  | _, .Thread p, .Thread q => p.addr == q.addr
  | _, _, _ => false

/-! ## The traversal contract

Each `traverse` implementation is modelled as the list of heap
references it reports to the collector, in visit order.  Marking a
`GcPtr` reports that one reference; the collector performs the
transitive walk itself. -/

/-- `Value::traverse`: each heap variant reports its single reference;
`Int` and `Float` report nothing. -/
def Value.traverse : Value → List GcPtr
  | .String p => [p]
  | .Data p => [p]
  | .Function p => [p]
  | .Closure p => [p]
  | .PartialApplication p => [p]
  | .Userdata p => [p]
  | .Thread p => [p]
  | .Int _ => []
  | .Float _ => []

/-- `DataStruct::traverse`: every field. -/
def dataStructTraverse (fields : List Value) : List GcPtr :=
  (fields.map Value.traverse).flatten

/-- `ClosureData::traverse`: the compiled-function reference, then every
upvalue. -/
def closureDataTraverse (f : GcPtr) (upvars : List Value) : List GcPtr :=
  f :: (upvars.map Value.traverse).flatten

/-- `Callable::traverse`: a closure reference is visited; an extern
reference is ignored (`Callable::Extern(_) => ()` in the source). -/
def callableTraverse : Callable → List GcPtr
  | .Closure c => [c]
  | .Extern _ => []

/-- `PartialApplicationData::traverse`: the callable (via
`Callable::traverse`), then every supplied argument. -/
def appDataTraverse (c : Callable) (args : List Value) : List GcPtr :=
  callableTraverse c ++ (args.map Value.traverse).flatten

/-- `ExternFunction::traverse`: visits nothing (the native callback is
opaque to the collector). -/
def externFunctionTraverse : List GcPtr := []

/-! ## Derived `Getable::from_value` (generated by `getable.rs`)

The derive macro emits marshalling code; its semantics is modelled from
the `quote!` templates in `src/codegen/src/getable.rs`.  The accessors
it consumes (`lookup_field`, `get_variant`, `tag`) are the heap's
public contract (spec §6): `lookup_field` maps a field name to the
corresponding slot's `Value` or reports "not found", `get_variant n`
returns the `n`-th slot or reports "out of range"; the name-to-slot
mapping itself lives outside this repository, so `lookup_field` is
passed as a function. -/

/-- Outcome of generated marshalling code: a reconstructed value, or a
panic (the generated code never recovers or guesses). -/
inductive Marshal (α : Type) where
  | ok : α → Marshal α
  | fatal : String → Marshal α
deriving DecidableEq

/-- `variants.as_ref()` as inspected by the generated `from_value`: a
data-aggregate view (tag and slots), or any other shape. -/
inductive ValueRef where
  | dataRef : VMTag → List Value → ValueRef
  | other : ValueRef
deriving DecidableEq

/-- Panic message of the generated shape check. -/
def unexpectedValueMsg : String :=
  "Unexpected value. Do the type definitions match?"

/-- Panic message of the generated field lookup. -/
def cannotFindFieldMsg (n : String) : String :=
  "Cannot find the field " ++ n ++ ". Do the type definitions match?"

/-- Panic message of the generated enum tag dispatch. -/
def unexpectedTagMsg : String :=
  "Unexpected tag. Do the type definitions match?"

/-- Panic message of the generated enum slot extraction. -/
def enumIndexMsg (i : Nat) : String :=
  "Enum does not contain data at index " ++ toString i ++
    ". Do the type definitions match?"

/-- Field-initializer chain generated by `gen_struct_cons`: look each
declared field up by name and panic on the first miss. -/
def structCons (lookup : String → Option Value) : List String → Marshal (List Value)
  | [] => .ok []
  | n :: ns =>
    match lookup n with
    | some v =>
      match structCons lookup ns with
      | .ok vs => .ok (v :: vs)
      | .fatal e => .fatal e
    | none => .fatal (cannotFindFieldMsg n)

/-- `from_value` generated for a derived struct (`gen_impl` around
`gen_struct_cons`): a non-`Data` value panics with the
unexpected-shape message; otherwise the fields are reconstructed by
name. -/
def getableStructFromValue (lookup : String → Option Value) (names : List String) :
    ValueRef → Marshal (List Value)
  | .dataRef _ _ => structCons lookup names
  | .other => .fatal unexpectedValueMsg

/-- Slot extraction for one enum variant (`gen_tuple_variant_cons` /
`gen_struct_variant_cons`): `get_variant i` for `i = start ..
start+arity-1`, panicking on a missing slot. -/
def variantSlotsFrom (fields : List Value) : Nat → Nat → Marshal (List Value)
  | _, 0 => .ok []
  | i, k + 1 =>
    match fields.get? i with
    | some v =>
      match variantSlotsFrom fields (i + 1) k with
      | .ok vs => .ok (v :: vs)
      | .fatal e => .fatal e
    | none => .fatal (enumIndexMsg i)

/-- `from_value` generated for a derived enum (`derive_enum`): a
non-`Data` value panics; otherwise the aggregate's tag selects the
variant by declaration order (the first declared variant is tag 0,
given by `enumerate()`), an out-of-range tag panics with the
unexpected-tag message, and the selected variant's slots are extracted
by index. -/
def enumFromValue (arities : List Nat) : ValueRef → Marshal (Nat × List Value)
  | .other => .fatal unexpectedValueMsg
  | .dataRef tag fields =>
    match arities.get? tag with
    | some k =>
      match variantSlotsFrom fields 0 k with
      | .ok vs => .ok (tag, vs)
      | .fatal e => .fatal e
    | none => .fatal unexpectedTagMsg

/-- `DataStruct::get_variant` (spec §6): 0-based indexed slot access. -/
def getVariant : HeapObj → Nat → Option Value
  | .dataStruct _ fs, i => fs.get? i
  | _, _ => none

/-! ## Well-formedness of clone states

`MemWF B s` is the closed-world invariant the Rust heap guarantees by
construction: association keys are unique and below the allocation
cursor, `B` (the boundary below which the source objects of the current
top-level clone live) is at most the cursor, source-side objects only
reference source-side objects, every stored value dereferences to an
object of its own kind, and every visited entry is keyed by a live
source address whose recorded value matches the keyed object's kind —
the invariant behind the `Ok(_) => unreachable!()` arms. -/

/-- The address a value's pointer carries, for the four cloneable heap
kinds (the kinds `deep_clone` registers in the visited map). -/
def cloneableAddr : Value → Option Addr
  | .String p => some p.addr
  | .Data p => some p.addr
  | .Closure p => some p.addr
  | .PartialApplication p => some p.addr
  | _ => none

/-- All heap-variant pointers of the value lie below `B`. -/
def valueLowb (B : Nat) : Value → Bool
  | .String p => decide (p.addr < B)
  | .Data p => decide (p.addr < B)
  | .Function p => decide (p.addr < B)
  | .Closure p => decide (p.addr < B)
  | .PartialApplication p => decide (p.addr < B)
  | .Userdata p => decide (p.addr < B)
  | .Thread p => decide (p.addr < B)
  | _ => true

/-- Kind tag of a heap object. -/
def kindOf : HeapObj → Nat
  | .str _ => 0
  | .dataStruct _ _ => 1
  | .closureData _ _ => 2
  | .appData _ _ => 3
  | .bytecode => 4
  | .externFn => 5
  | .userObj => 6
  | .threadObj => 7

/-- Kind of the object stored at an address, when live. -/
def kindAt (m : Mem) (a : Addr) : Option Nat := (lookupMem m a).map kindOf

/-- Constructor tag of a value. -/
def ctorIdx : Value → Nat
  | .Int _ => 0
  | .Float _ => 1
  | .String _ => 2
  | .Data _ => 3
  | .Function _ => 4
  | .Closure _ => 5
  | .PartialApplication _ => 6
  | .Userdata _ => 7
  | .Thread _ => 8

/-- The value's pointer dereferences to an object of the matching kind
(constrained only for the kinds `deep_clone` dereferences). -/
def valueWFb (m : Mem) : Value → Bool
  | .String p => kindAt m p.addr == some 0
  | .Data p => kindAt m p.addr == some 1
  | .Closure p => kindAt m p.addr == some 2
  | .PartialApplication p => kindAt m p.addr == some 3
  | _ => true

/-- The `Value`-holding slots of a heap object (fields, upvalues,
arguments). -/
def objFields : HeapObj → List Value
  | .dataStruct _ fs => fs
  | .closureData _ us => us
  | .appData _ vs => vs
  | _ => []

/-- A visited entry's stored value matches the kind of the object its
key addresses: a string object records a `String`, a data object a
`Data`, a closure object a `Closure`, an application object a
`PartialApplication`. -/
def variantMatchb (o : HeapObj) (w : Value) : Bool :=
  match kindOf o with
  | 0 => ctorIdx w == 2
  | 1 => ctorIdx w == 3
  | 2 => ctorIdx w == 5
  | 3 => ctorIdx w == 6
  | _ => true

/-- A visited entry is keyed by a live address below `B`, stores a
well-formed value, and the stored value's variant matches the keyed
object's kind. -/
def visitedEntryOk (B : Nat) (m : Mem) (q : Addr × Value) : Bool :=
  decide (q.1 < B) && valueWFb m q.2 &&
    match lookupMem m q.1 with
    | some o => variantMatchb o q.2
    | none => false

/-- The closed-world invariant of a clone state (see section comment). -/
def MemWF (B : Nat) (s : CloneSt) : Prop :=
  (s.gc.mem.map Prod.fst).Nodup ∧
  (∀ q ∈ s.gc.mem, q.1 < s.gc.next) ∧
  B ≤ s.gc.next ∧
  (∀ q ∈ s.gc.mem, q.1 < B → ∀ w ∈ objFields q.2, valueLowb B w = true) ∧
  (∀ q ∈ s.gc.mem, ∀ w ∈ objFields q.2, valueWFb s.gc.mem w = true) ∧
  (∀ q ∈ s.visited, visitedEntryOk B s.gc.mem q = true)

instance (B : Nat) (s : CloneSt) : Decidable (MemWF B s) := by
  unfold MemWF; infer_instance

/-- Number of live addresses below `B` in a memory that are not in the
visited map. -/
def unvisitedCount (B : Nat) (vis : Visited) : Mem → Nat
  | [] => 0
  | q :: m =>
    (if q.1 < B ∧ lookupVisited vis q.1 = none then 1 else 0) +
      unvisitedCount B vis m

/-- Number of live source addresses (< `B`) not yet in the visited map:
the measure that strictly decreases at every shell allocation and
bounds the recursion depth of `deep_clone`. -/
def mu (B : Nat) (s : CloneSt) : Nat := unvisitedCount B s.visited s.gc.mem

/-! ## Postconditions of one `deep_clone` step -/

/-- Composable facts relating the state before and after any successful
`deep_clone` step: the invariant is preserved, visited entries are
never removed or overwritten, source-side memory (below `B`) is
untouched, the target generation is fixed, the allocation cursor only
grows, objects never change kind, and the unvisited-source measure
never grows. -/
structure StepPost (B : Nat) (s s' : CloneSt) : Prop where
  wf : MemWF B s'
  visMono : ∀ a w, lookupVisited s.visited a = some w →
    lookupVisited s'.visited a = some w
  memLow : ∀ a, a < B → lookupMem s'.gc.mem a = lookupMem s.gc.mem a
  genEq : s'.gc.gen = s.gc.gen
  nextMono : s.gc.next ≤ s'.gc.next
  kindPres : ∀ a o, lookupMem s.gc.mem a = some o →
    ∃ o', lookupMem s'.gc.mem a = some o' ∧ kindOf o' = kindOf o
  muLe : mu B s' ≤ mu B s

/-- A slot value is settled in a state: already at or below the target
generation, or a cloneable heap value whose source address has been
registered in the visited map.  (Uncloneable kinds above the target
generation are never settled — they abort the clone.) -/
def settled (s : CloneSt) (w : Value) : Prop :=
  w.generation ≤ s.gc.gen ∨
    ∃ a, cloneableAddr w = some a ∧ (lookupVisited s.visited a).isSome

/-- A source address is processed: every slot of the object it stores is
settled. -/
def processed (s : CloneSt) (a : Addr) : Prop :=
  ∀ o, lookupMem s.gc.mem a = some o → ∀ w ∈ objFields o, settled s w

/-- Every address that entered the visited map during a step is
processed afterwards. -/
def NewProcessed (s s' : CloneSt) : Prop :=
  ∀ a, lookupVisited s.visited a = none →
    (lookupVisited s'.visited a).isSome → processed s' a

/-- Registration: a value at or below the target generation is returned
unchanged; otherwise the result (of the same variant) is recorded in
the visited map under the source address. -/
def Reg (v r : Value) (s s' : CloneSt) : Prop :=
  if v.generation ≤ s.gc.gen then r = v
  else ∃ a, cloneableAddr v = some a ∧ lookupVisited s'.visited a = some r ∧
    ctorIdx r = ctorIdx v

/-- Master specification of one clone function: under the closed-world
invariant, on well-formed source-side input it never reaches an
impossible (`unreachable!()`) execution, and success establishes the
step postcondition, processes every newly visited address, yields a
well-formed result and registers it. -/
def MSpec (B : Nat) (rec : Value → CloneSt → Res (Value × CloneSt)) : Prop :=
  ∀ v s, MemWF B s → valueWFb s.gc.mem v = true → valueLowb B v = true →
    rec v s ≠ .stuck ∧
    ∀ r s', rec v s = .ok (r, s') →
      StepPost B s s' ∧ NewProcessed s s' ∧
        valueWFb s'.gc.mem r = true ∧ Reg v r s s'

/-- The field-patch loop as a relation: the `i`-th output slot is the
result of `rec` applied to the `i`-th source slot, run in the state
left by the preceding slots, in source order. -/
inductive SlotsRel (rec : Value → CloneSt → Res (Value × CloneSt)) :
    CloneSt → List Value → List Value → CloneSt → Prop where
  | nil : ∀ s, SlotsRel rec s [] [] s
  | cons : ∀ s v rv s1 vs rvs s2, rec v s = .ok (rv, s1) →
      SlotsRel rec s1 vs rvs s2 → SlotsRel rec s (v :: vs) (rv :: rvs) s2

/-- A value transitively containing an uncloneable kind through a chain
of heap values whose generations all exceed `g`. -/
inductive BadChain (m : Mem) (g : Nat) : Value → Prop where
  | fn : ∀ p, g < p.gen → BadChain m g (.Function p)
  | ud : ∀ p, g < p.gen → BadChain m g (.Userdata p)
  | th : ∀ p, g < p.gen → BadChain m g (.Thread p)
  | viaData : ∀ p t fs w, g < p.gen →
      lookupMem m p.addr = some (.dataStruct t fs) → w ∈ fs →
      BadChain m g w → BadChain m g (.Data p)
  | viaClosure : ∀ p f us w, g < p.gen →
      lookupMem m p.addr = some (.closureData f us) → w ∈ us →
      BadChain m g w → BadChain m g (.Closure p)
  | viaApp : ∀ p c vs w, g < p.gen →
      lookupMem m p.addr = some (.appData c vs) → w ∈ vs →
      BadChain m g w → BadChain m g (.PartialApplication p)

/-- The state right after shell allocation for a data value: the shell
(with the verbatim source fields as placeholders) is in memory and the
new reference is registered in the visited map, *before* any
recursion. -/
def dataShellSt (p : GcPtr) (s : CloneSt) (t : VMTag) (fs : List Value) : CloneSt :=
  ⟨(p.addr, Value.Data ⟨s.gc.next, s.gc.gen⟩) :: s.visited,
    ⟨(s.gc.next, HeapObj.dataStruct t fs) :: s.gc.mem, s.gc.gen, s.gc.next + 1⟩⟩

/-- Shell state for a closure (source upvalues as placeholders). -/
def closureShellSt (p : GcPtr) (s : CloneSt) (f : GcPtr) (us : List Value) : CloneSt :=
  ⟨(p.addr, Value.Closure ⟨s.gc.next, s.gc.gen⟩) :: s.visited,
    ⟨(s.gc.next, HeapObj.closureData f us) :: s.gc.mem, s.gc.gen, s.gc.next + 1⟩⟩

/-- Shell state for a partial application (source arguments as
placeholders). -/
def appShellSt (p : GcPtr) (s : CloneSt) (c : Callable) (vs : List Value) : CloneSt :=
  ⟨(p.addr, Value.PartialApplication ⟨s.gc.next, s.gc.gen⟩) :: s.visited,
    ⟨(s.gc.next, HeapObj.appData c vs) :: s.gc.mem, s.gc.gen, s.gc.next + 1⟩⟩

/-! ## Basic lemmas about the association lists -/

theorem lookupMem_cons (b : Addr) (o : HeapObj) (m : Mem) (a : Addr) :
    lookupMem ((b, o) :: m) a = if a = b then some o else lookupMem m a := rfl

theorem lookupVisited_cons (b : Addr) (w : Value) (vs : Visited) (a : Addr) :
    lookupVisited ((b, w) :: vs) a = if a = b then some w else lookupVisited vs a := rfl

theorem setMem_cons (c : Addr) (o₀ : HeapObj) (m : Mem) (a : Addr) (o : HeapObj) :
    setMem ((c, o₀) :: m) a o = (if c = a then (a, o) else (c, o₀)) :: setMem m a o := by
  by_cases hc : c = a <;> simp [setMem, hc]

theorem lookupMem_setMem_ne (m : Mem) (a b : Addr) (o : HeapObj) (h : b ≠ a) :
    lookupMem (setMem m a o) b = lookupMem m b := by
  induction m with
  | nil => rfl
  | cons q m ih =>
    obtain ⟨c, o₀⟩ := q
    rw [setMem_cons]
    by_cases hc : c = a
    · subst hc
      rw [if_pos rfl, lookupMem_cons, lookupMem_cons, if_neg h, if_neg h, ih]
    · rw [if_neg hc, lookupMem_cons, lookupMem_cons]
      by_cases hb : b = c
      · rw [if_pos hb, if_pos hb]
      · rw [if_neg hb, if_neg hb, ih]

theorem lookupMem_setMem_self (m : Mem) (a : Addr) (o o₀ : HeapObj)
    (h : lookupMem m a = some o₀) : lookupMem (setMem m a o) a = some o := by
  induction m with
  | nil => simp [lookupMem] at h
  | cons q m ih =>
    obtain ⟨c, o₁⟩ := q
    rw [setMem_cons]
    by_cases hc : c = a
    · subst hc
      rw [if_pos rfl, lookupMem_cons, if_pos rfl]
    · rw [if_neg hc, lookupMem_cons, if_neg (fun hac : a = c => hc hac.symm)]
      rw [lookupMem_cons, if_neg (fun hac : a = c => hc hac.symm)] at h
      exact ih h

theorem lookupMem_setMem_isSome (m : Mem) (a b : Addr) (o : HeapObj)
    (h : (lookupMem m b).isSome) : (lookupMem (setMem m a o) b).isSome := by
  by_cases hb : b = a
  · subst hb
    obtain ⟨o₀, ho⟩ := Option.isSome_iff_exists.1 h
    rw [lookupMem_setMem_self m b o o₀ ho]
    rfl
  · rwa [lookupMem_setMem_ne m a b o hb]

/-- A successful lookup exhibits a member of the association list. -/
theorem mem_of_lookupMem {m : Mem} {a : Addr} {o : HeapObj}
    (h : lookupMem m a = some o) : (a, o) ∈ m := by
  induction m with
  | nil => simp [lookupMem] at h
  | cons q m ih =>
    obtain ⟨c, o₁⟩ := q
    rw [lookupMem_cons] at h
    by_cases hb : a = c
    · subst hb
      rw [if_pos rfl] at h
      cases h
      exact List.mem_cons_self _ _
    · rw [if_neg hb] at h
      exact List.mem_cons_of_mem _ (ih h)

theorem lookupVisited_isSome_of_mem {vs : Visited} {q : Addr × Value}
    (h : q ∈ vs) : (lookupVisited vs q.1).isSome := by
  induction vs with
  | nil => cases h
  | cons q₀ vs ih =>
    obtain ⟨c, w⟩ := q₀
    rw [lookupVisited_cons]
    by_cases hb : q.1 = c
    · simp [hb]
    · rcases List.mem_cons.1 h with h | h
      · subst h
        exact absurd rfl hb
      · rw [if_neg hb]
        exact ih h

theorem mem_of_lookupVisited {vs : Visited} {a : Addr} {w : Value}
    (h : lookupVisited vs a = some w) : (a, w) ∈ vs := by
  induction vs with
  | nil => simp [lookupVisited] at h
  | cons q vs ih =>
    obtain ⟨c, w₀⟩ := q
    rw [lookupVisited_cons] at h
    by_cases hb : a = c
    · subst hb
      rw [if_pos rfl] at h
      cases h
      exact List.mem_cons_self _ _
    · rw [if_neg hb] at h
      exact List.mem_cons_of_mem _ (ih h)

/-! ## Unfolding lemmas for `deepClone` -/

theorem deepClone_zero (v : Value) (s : CloneSt) : deepClone 0 v s = .outOfFuel := rfl

theorem deepClone_le {v : Value} {s : CloneSt} (fuel : Nat)
    (h : v.generation ≤ s.gc.gen) : deepClone (fuel + 1) v s = .ok (v, s) := by
  simp [deepClone, h]

theorem deepClone_str {p : GcPtr} {s : CloneSt} (fuel : Nat)
    (h : ¬ (Value.String p).generation ≤ s.gc.gen) :
    deepClone (fuel + 1) (.String p) s = deepCloneStr p s := by
  simp [deepClone, h]

theorem deepClone_data {p : GcPtr} {s : CloneSt} (fuel : Nat)
    (h : ¬ (Value.Data p).generation ≤ s.gc.gen) :
    deepClone (fuel + 1) (.Data p) s =
      mapGc Value.Data (deepCloneData (deepClone fuel) p s) := by
  simp [deepClone, h]

theorem deepClone_closure {p : GcPtr} {s : CloneSt} (fuel : Nat)
    (h : ¬ (Value.Closure p).generation ≤ s.gc.gen) :
    deepClone (fuel + 1) (.Closure p) s =
      mapGc Value.Closure (deepCloneClosure (deepClone fuel) p s) := by
  simp [deepClone, h]

theorem deepClone_app {p : GcPtr} {s : CloneSt} (fuel : Nat)
    (h : ¬ (Value.PartialApplication p).generation ≤ s.gc.gen) :
    deepClone (fuel + 1) (.PartialApplication p) s =
      mapGc Value.PartialApplication (deepCloneApp (deepClone fuel) p s) := by
  simp [deepClone, h]

theorem deepClone_fn {p : GcPtr} {s : CloneSt} (fuel : Nat)
    (h : ¬ (Value.Function p).generation ≤ s.gc.gen) :
    deepClone (fuel + 1) (.Function p) s = .err uncloneableMsg := by
  simp [deepClone, h]

theorem deepClone_ud {p : GcPtr} {s : CloneSt} (fuel : Nat)
    (h : ¬ (Value.Userdata p).generation ≤ s.gc.gen) :
    deepClone (fuel + 1) (.Userdata p) s = .err uncloneableMsg := by
  simp [deepClone, h]

theorem deepClone_th {p : GcPtr} {s : CloneSt} (fuel : Nat)
    (h : ¬ (Value.Thread p).generation ≤ s.gc.gen) :
    deepClone (fuel + 1) (.Thread p) s = .err uncloneableMsg := by
  simp [deepClone, h]

/-! ## Claim C1: generation short-circuit -/

/-- **C1.** For every `Value` whose `generation()` is at most the target
heap's `generation()`, `deep_clone` returns `Ok` with the identical
value (the same handle), performs no allocation and leaves the visited
map — indeed the whole state — untouched; and `generation()` returns 0
for `Int` and `Float`, so primitives always take this path and are
returned unchanged. -/
theorem c1_generation_short_circuit :
    (∀ (fuel : Nat) (v : Value) (s : CloneSt), v.generation ≤ s.gc.gen →
      deepClone (fuel + 1) v s = .ok (v, s)) ∧
    (∀ i, (Value.Int i).generation = 0) ∧
    (∀ x, (Value.Float x).generation = 0) :=
  ⟨fun fuel _ _ h => deepClone_le fuel h, fun _ => rfl, fun _ => rfl⟩

/-- Witness for C1 at a concrete primitive and a concrete heap value of
generation 1 cloned into a generation-1 heap. -/
theorem c1_generation_short_circuit_witness :
    (Value.Int 5).generation ≤ (CloneSt.mk [] ⟨[], 0, 0⟩).gc.gen ∧
    deepClone 1 (Value.Int 5) ⟨[], ⟨[], 0, 0⟩⟩ = .ok (Value.Int 5, ⟨[], ⟨[], 0, 0⟩⟩) ∧
    (Value.Data ⟨0, 1⟩).generation ≤ (CloneSt.mk [] ⟨[], 1, 5⟩).gc.gen ∧
    deepClone 3 (Value.Data ⟨0, 1⟩) ⟨[], ⟨[], 1, 5⟩⟩ =
      .ok (Value.Data ⟨0, 1⟩, ⟨[], ⟨[], 1, 5⟩⟩) :=
  ⟨by decide, c1_generation_short_circuit.1 0 (Value.Int 5) ⟨[], ⟨[], 0, 0⟩⟩ (by decide),
    by decide, c1_generation_short_circuit.1 2 (Value.Data ⟨0, 1⟩) ⟨[], ⟨[], 1, 5⟩⟩ (by decide)⟩

/-! ## Claim C2, counterexample part (the theorem follows the master
development below) -/

/-- **C2 counterexample.** A `Function` value whose generation (0) does
not exceed the target heap's generation is returned unchanged by the
generation short-circuit — `deep_clone` succeeds instead of returning
the uncloneable-kind error, refuting the unconditional claim. -/
theorem c2_counterexample :
    deepClone 1 (Value.Function ⟨0, 0⟩) ⟨[], ⟨[(0, HeapObj.externFn)], 0, 1⟩⟩ =
      .ok (Value.Function ⟨0, 0⟩, ⟨[], ⟨[(0, HeapObj.externFn)], 0, 1⟩⟩) := rfl

/-! ## Claim C5: reference equality of closures and friends -/

/-- **C5 counterexample.** `ClosureData::eq` returns `false`
unconditionally, so even the *same* heap reference compared with itself
is unequal — equality does not hold "exactly when they are the same
heap reference". -/
theorem c5_counterexample :
    valueEq [(0, HeapObj.closureData ⟨9, 9⟩ [])] 1
      (Value.Closure ⟨0, 0⟩) (Value.Closure ⟨0, 0⟩) = false := by decide

/-- **C5 (amended).** Equality on `Closure`, `PartialApplication` and
`Function` payloads is never structural: the payload `eq` impls return
`false` unconditionally, so *no* two such values ever compare equal —
bit-identical payloads under distinct references are unequal, and so is
the identical reference compared with itself. -/
theorem c5_payload_equality_constant_false :
    ∀ (m : Mem) (fuel : Nat) (p q : GcPtr),
      valueEq m fuel (Value.Closure p) (Value.Closure q) = false ∧
      valueEq m fuel (Value.PartialApplication p) (Value.PartialApplication q) = false ∧
      valueEq m fuel (Value.Function p) (Value.Function q) = false := by
  intro m fuel p q
  cases fuel <;> exact ⟨rfl, rfl, rfl⟩

/-! ## Claim C7: the traversal contract -/

/-- **C7 (divergence exhibit).** `Int`, `Float` and
`ExternFunction::traverse` report nothing, `ClosureData` and
`DataStruct` report the function reference and every slot — but
`Callable::traverse` ignores an `Extern` callable, so a partial
application holding an extern callable reports *no* reference for it,
although the very same pointer kind is reported when it appears as a
`Value::Function` (premature-reclamation hazard; contradicts the
traversal contract of spec §4.1). -/
theorem c7_extern_callable_not_traversed :
    appDataTraverse (Callable.Extern ⟨0, 1⟩) [Value.Int 3] = [] ∧
    appDataTraverse (Callable.Closure ⟨2, 1⟩) [Value.Int 3] = [⟨2, 1⟩] ∧
    Value.traverse (Value.Function ⟨0, 1⟩) = [⟨0, 1⟩] ∧
    Value.traverse (Value.Int 3) = [] ∧
    Value.traverse (Value.Float 0) = [] ∧
    externFunctionTraverse = [] ∧
    closureDataTraverse ⟨4, 1⟩ [Value.String ⟨5, 1⟩, Value.Int 0] = [⟨4, 1⟩, ⟨5, 1⟩] ∧
    dataStructTraverse [Value.Int 1, Value.String ⟨6, 1⟩] = [⟨6, 1⟩] ∧
    appDataTraverse (Callable.Extern ⟨0, 1⟩) [Value.Data ⟨7, 1⟩] = [⟨7, 1⟩] := by
  decide

/-! ## Claim C8: derived `Getable` treats shape mismatches as fatal -/

theorem structCons_fatal (lookup : String → Option Value) :
    ∀ (names : List String) (n : String), n ∈ names → lookup n = none →
      ∃ e, structCons lookup names = .fatal e := by
  intro names
  induction names with
  | nil => intro n hn; cases hn
  | cons n₀ ns ih =>
    intro n hn hnone
    cases hl : lookup n₀ with
    | none => exact ⟨cannotFindFieldMsg n₀, by simp [structCons, hl]⟩
    | some v =>
      rcases List.mem_cons.1 hn with h | h
      · subst h
        rw [hl] at hnone
        cases hnone
      · obtain ⟨e, he⟩ := ih n h hnone
        exact ⟨e, by simp [structCons, hl, he]⟩

/-- **C8.** For derived `Getable` implementations, a layout or shape
mismatch is fatal, never recovered: a derived struct whose
`lookup_field` misses some declared field panics; a derived enum whose
aggregate tag matches no declared variant (variants are numbered by
declaration order, the first being tag 0, so a tag is matched exactly
when it is below the variant count) panics; and any derived type
inspecting a non-`Data` value panics with the unexpected-shape
message. -/
theorem c8_layout_mismatch_is_fatal :
    (∀ (lookup : String → Option Value) (names : List String) (t : VMTag)
        (fs : List Value) (n : String), n ∈ names → lookup n = none →
      ∃ e, getableStructFromValue lookup names (.dataRef t fs) = .fatal e) ∧
    (∀ (lookup : String → Option Value) (names : List String),
      getableStructFromValue lookup names .other = .fatal unexpectedValueMsg) ∧
    (∀ (arities : List Nat) (tag : VMTag) (fs : List Value), arities.length ≤ tag →
      enumFromValue arities (.dataRef tag fs) = .fatal unexpectedTagMsg) ∧
    (∀ arities : List Nat, enumFromValue arities .other = .fatal unexpectedValueMsg) := by
  refine ⟨?_, fun lookup names => rfl, ?_, fun arities => rfl⟩
  · intro lookup names t fs n hn hnone
    exact structCons_fatal lookup names n hn hnone
  · intro arities tag fs h
    simp [enumFromValue, List.getElem?_eq_none h]

/-- Witness for C8: a one-field struct whose field cannot be found, and
an enum value whose tag 1 exceeds the (empty) variant list. -/
theorem c8_layout_mismatch_is_fatal_witness :
    "x" ∈ ["x"] ∧
    (∃ e, getableStructFromValue (fun _ => none) ["x"] (.dataRef 0 []) = .fatal e) ∧
    ([] : List Nat).length ≤ 1 ∧
    enumFromValue [] (.dataRef 1 []) = .fatal unexpectedTagMsg :=
  ⟨List.mem_singleton.2 rfl,
    c8_layout_mismatch_is_fatal.1 (fun _ => none) ["x"] 0 [] "x"
      (List.mem_singleton.2 rfl) rfl,
    by decide,
    c8_layout_mismatch_is_fatal.2.2.1 [] 1 [] (by decide)⟩

/-! ## Claim C9: `ClosureInitDef` -/

/-- **C9.** `ClosureInitDef(function, count)` initializes a closure
whose function field is the given reference and whose upvalue sequence
has length exactly `count` with every slot the zero-valued `Int`; and
its `size()` equals the size `ClosureDataDef` reports for an upvalue
slice of the same length. -/
theorem c9_closure_init_def (f : GcPtr) (n : Nat) (us : List Value)
    (h : us.length = n) :
    ClosureInitDef.initObj (ClosureInitDef.mk f n) =
      HeapObj.closureData f (List.replicate n (Value.Int 0)) ∧
    (objFields (ClosureInitDef.initObj (ClosureInitDef.mk f n))).length = n ∧
    (∀ w ∈ objFields (ClosureInitDef.initObj (ClosureInitDef.mk f n)), w = Value.Int 0) ∧
    (ClosureInitDef.mk f n).size = (ClosureDataDef.mk f us).size := by
  refine ⟨rfl, ?_, ?_, ?_⟩
  · simp [ ClosureInitDef.initObj, objFields]
  · intro w hw
    exact List.eq_of_mem_replicate
      (by simpa [ ClosureInitDef.initObj, objFields] using hw)
  · simp [ClosureInitDef.size, ClosureDataDef.size, h]

/-- Witness for C9 with `count = 2` and a two-value upvalue slice. -/
theorem c9_closure_init_def_witness :
    ([Value.Int 7, Value.Float 0] : List Value).length = 2 ∧
    (ClosureInitDef.initObj (ClosureInitDef.mk ⟨3, 1⟩ 2) =
        HeapObj.closureData ⟨3, 1⟩ (List.replicate 2 (Value.Int 0)) ∧
      (objFields (ClosureInitDef.initObj (ClosureInitDef.mk ⟨3, 1⟩ 2))).length = 2 ∧
      (∀ w ∈ objFields (ClosureInitDef.initObj (ClosureInitDef.mk ⟨3, 1⟩ 2)), w = Value.Int 0) ∧
      (ClosureInitDef.mk ⟨3, 1⟩ 2).size =
        (ClosureDataDef.mk ⟨3, 1⟩ [Value.Int 7, Value.Float 0]).size) :=
  ⟨rfl, c9_closure_init_def ⟨3, 1⟩ 2 [Value.Int 7, Value.Float 0] rfl⟩

/-! ## Inversion lemmas for `mapGc` and the clone helpers -/

theorem mapGc_ok {mk : GcPtr → Value} {x : Res (GcPtr × CloneSt)} {r : Value}
    {s' : CloneSt} : mapGc mk x = .ok (r, s') ↔ ∃ q, x = .ok (q, s') ∧ r = mk q := by
  cases x with
  | ok y =>
    obtain ⟨q, s₀⟩ := y
    constructor
    · intro h
      cases h
      exact ⟨q, rfl, rfl⟩
    · rintro ⟨q', hq, hr⟩
      cases hq
      cases hr
      rfl
  | err e => simp [mapGc]
  | stuck => simp [mapGc]
  | outOfFuel => simp [mapGc]

theorem mapGc_stuck {mk : GcPtr → Value} {x : Res (GcPtr × CloneSt)} :
    mapGc mk x = .stuck ↔ x = .stuck := by
  cases x with
  | ok y => obtain ⟨q, s₀⟩ := y; simp [mapGc]
  | err e => simp [mapGc]
  | stuck => simp [mapGc]
  | outOfFuel => simp [mapGc]

theorem mapGc_err {mk : GcPtr → Value} {x : Res (GcPtr × CloneSt)} {e : String} :
    mapGc mk x = .err e ↔ x = .err e := by
  cases x with
  | ok y => obtain ⟨q, s₀⟩ := y; simp [mapGc]
  | err e₀ => simp [mapGc]
  | stuck => simp [mapGc]
  | outOfFuel => simp [mapGc]

theorem mapGc_outOfFuel {mk : GcPtr → Value} {x : Res (GcPtr × CloneSt)} :
    mapGc mk x = .outOfFuel ↔ x = .outOfFuel := by
  cases x with
  | ok y => obtain ⟨q, s₀⟩ := y; simp [mapGc]
  | err e => simp [mapGc]
  | stuck => simp [mapGc]
  | outOfFuel => simp [mapGc]

/-- Occupied visited entry: `deep_clone_data` returns the recorded
pointer with the state untouched (when the entry holds a `Data`). -/
theorem deepCloneData_hit {rec : Value → CloneSt → Res (Value × CloneSt)} {p : GcPtr}
    {s : CloneSt} {q : GcPtr}
    (hvis : lookupVisited s.visited p.addr = some (Value.Data q)) :
    deepCloneData rec p s = .ok (q, s) := by
  simp [deepCloneData, deepClonePtr, hvis]

theorem deepCloneClosure_hit {rec : Value → CloneSt → Res (Value × CloneSt)} {p : GcPtr}
    {s : CloneSt} {q : GcPtr}
    (hvis : lookupVisited s.visited p.addr = some (Value.Closure q)) :
    deepCloneClosure rec p s = .ok (q, s) := by
  simp [deepCloneClosure, deepClonePtr, hvis]

theorem deepCloneApp_hit {rec : Value → CloneSt → Res (Value × CloneSt)} {p : GcPtr}
    {s : CloneSt} {q : GcPtr}
    (hvis : lookupVisited s.visited p.addr = some (Value.PartialApplication q)) :
    deepCloneApp rec p s = .ok (q, s) := by
  simp [deepCloneApp, deepClonePtr, hvis]

theorem deepCloneStr_hit {p : GcPtr} {s : CloneSt} {w : Value}
    (hvis : lookupVisited s.visited p.addr = some w) :
    deepCloneStr p s = .ok (w, s) := by
  simp [deepCloneStr, deepClonePtr, hvis]

/-- Vacant visited entry: `deep_clone_data` allocates the shell,
registers it, runs the field-wise clone and patches the shell. -/
theorem deepCloneData_vacant {rec : Value → CloneSt → Res (Value × CloneSt)} {p : GcPtr}
    {s : CloneSt} {t : VMTag} {fs : List Value}
    (hvis : lookupVisited s.visited p.addr = none)
    (hmem : lookupMem s.gc.mem p.addr = some (.dataStruct t fs)) :
    deepCloneData rec p s =
      match cloneSlots rec fs (dataShellSt p s t fs) with
      | .ok (nf, s2) =>
        .ok (⟨s.gc.next, s.gc.gen⟩, patchSt s2 s.gc.next (.dataStruct t nf))
      | .err e => .err e
      | .stuck => .stuck
      | .outOfFuel => .outOfFuel := by
  simp only [deepCloneData, deepClonePtr, hvis, hmem, Gc.allocObj, Def.initObj,
    dataShellSt]

theorem deepCloneClosure_vacant {rec : Value → CloneSt → Res (Value × CloneSt)}
    {p : GcPtr} {s : CloneSt} {f : GcPtr} {us : List Value}
    (hvis : lookupVisited s.visited p.addr = none)
    (hmem : lookupMem s.gc.mem p.addr = some (.closureData f us)) :
    deepCloneClosure rec p s =
      match cloneSlots rec us (closureShellSt p s f us) with
      | .ok (nus, s2) =>
        .ok (⟨s.gc.next, s.gc.gen⟩, patchSt s2 s.gc.next (.closureData f nus))
      | .err e => .err e
      | .stuck => .stuck
      | .outOfFuel => .outOfFuel := by
  simp only [deepCloneClosure, deepClonePtr, hvis, hmem, Gc.allocObj,
    ClosureDataDef.initObj, closureShellSt]

theorem deepCloneApp_vacant {rec : Value → CloneSt → Res (Value × CloneSt)}
    {p : GcPtr} {s : CloneSt} {c : Callable} {vs : List Value}
    (hvis : lookupVisited s.visited p.addr = none)
    (hmem : lookupMem s.gc.mem p.addr = some (.appData c vs)) :
    deepCloneApp rec p s =
      match cloneSlots rec vs (appShellSt p s c vs) with
      | .ok (nvs, s2) =>
        .ok (⟨s.gc.next, s.gc.gen⟩, patchSt s2 s.gc.next (.appData c nvs))
      | .err e => .err e
      | .stuck => .stuck
      | .outOfFuel => .outOfFuel := by
  simp only [deepCloneApp, deepClonePtr, hvis, hmem, Gc.allocObj,
    PartialApplicationDataDef.initObj, appShellSt]

theorem deepCloneStr_vacant {p : GcPtr} {s : CloneSt} {bs : List Nat}
    (hvis : lookupVisited s.visited p.addr = none)
    (hmem : lookupMem s.gc.mem p.addr = some (.str bs)) :
    deepCloneStr p s =
      .ok (.String ⟨s.gc.next, s.gc.gen⟩,
        ⟨(p.addr, Value.String ⟨s.gc.next, s.gc.gen⟩) :: s.visited,
          ⟨(s.gc.next, HeapObj.str bs) :: s.gc.mem, s.gc.gen, s.gc.next + 1⟩⟩) := by
  simp only [deepCloneStr, deepClonePtr, hvis, hmem, Gc.allocObj]

/-! ## Error propagation: the only error `deep_clone` ever produces is
the uncloneable-kind message, and it passes unchanged through every
recursive step -/

theorem cloneSlots_err {rec : Value → CloneSt → Res (Value × CloneSt)}
    (hrec : ∀ v s e, rec v s = .err e → e = uncloneableMsg) :
    ∀ (l : List Value) (s : CloneSt) (e : String),
      cloneSlots rec l s = .err e → e = uncloneableMsg := by
  intro l
  induction l with
  | nil => intro s e h; simp [cloneSlots] at h
  | cons v vs ih =>
    intro s e h
    rw [cloneSlots] at h
    cases hv : rec v s with
    | ok y =>
      obtain ⟨rv, s1⟩ := y
      simp only [hv] at h
      cases hcs : cloneSlots rec vs s1 with
      | ok y2 => obtain ⟨rvs, s2⟩ := y2; simp [hcs] at h
      | err e2 =>
        simp only [hcs, Res.err.injEq] at h
        subst h
        exact ih s1 e2 hcs
      | stuck => simp [hcs] at h
      | outOfFuel => simp [hcs] at h
    | err e2 =>
      simp only [hv, Res.err.injEq] at h
      subst h
      exact hrec v s e2 hv
    | stuck => simp [hv] at h
    | outOfFuel => simp [hv] at h

theorem deepCloneData_err {rec : Value → CloneSt → Res (Value × CloneSt)}
    (hrec : ∀ v s e, rec v s = .err e → e = uncloneableMsg) :
    ∀ (p : GcPtr) (s : CloneSt) (e : String),
      deepCloneData rec p s = .err e → e = uncloneableMsg := by
  intro p s e h
  cases hvis : lookupVisited s.visited p.addr with
  | some w =>
    rw [deepCloneData] at h
    simp only [deepClonePtr, hvis] at h
    cases w <;> simp at h
  | none =>
    cases hmem : lookupMem s.gc.mem p.addr with
    | none =>
      rw [deepCloneData] at h
      simp [deepClonePtr, hvis, hmem] at h
    | some o =>
      cases o with
      | dataStruct t fs =>
        rw [deepCloneData_vacant hvis hmem] at h
        cases hcs : cloneSlots rec fs (dataShellSt p s t fs) with
        | ok y => obtain ⟨nf, s2⟩ := y; simp [hcs] at h
        | err e2 =>
          simp only [hcs, Res.err.injEq] at h
          subst h
          exact cloneSlots_err hrec _ _ e2 hcs
        | stuck => simp [hcs] at h
        | outOfFuel => simp [hcs] at h
      | str bs =>
        rw [deepCloneData] at h
        simp [deepClonePtr, hvis, hmem] at h
      | closureData f us =>
        rw [deepCloneData] at h
        simp [deepClonePtr, hvis, hmem] at h
      | appData c vs =>
        rw [deepCloneData] at h
        simp [deepClonePtr, hvis, hmem] at h
      | bytecode =>
        rw [deepCloneData] at h
        simp [deepClonePtr, hvis, hmem] at h
      | externFn =>
        rw [deepCloneData] at h
        simp [deepClonePtr, hvis, hmem] at h
      | userObj =>
        rw [deepCloneData] at h
        simp [deepClonePtr, hvis, hmem] at h
      | threadObj =>
        rw [deepCloneData] at h
        simp [deepClonePtr, hvis, hmem] at h

theorem deepCloneClosure_err {rec : Value → CloneSt → Res (Value × CloneSt)}
    (hrec : ∀ v s e, rec v s = .err e → e = uncloneableMsg) :
    ∀ (p : GcPtr) (s : CloneSt) (e : String),
      deepCloneClosure rec p s = .err e → e = uncloneableMsg := by
  intro p s e h
  cases hvis : lookupVisited s.visited p.addr with
  | some w =>
    rw [deepCloneClosure] at h
    simp only [deepClonePtr, hvis] at h
    cases w <;> simp at h
  | none =>
    cases hmem : lookupMem s.gc.mem p.addr with
    | none =>
      rw [deepCloneClosure] at h
      simp [deepClonePtr, hvis, hmem] at h
    | some o =>
      cases o with
      | closureData f us =>
        rw [deepCloneClosure_vacant hvis hmem] at h
        cases hcs : cloneSlots rec us (closureShellSt p s f us) with
        | ok y => obtain ⟨nf, s2⟩ := y; simp [hcs] at h
        | err e2 =>
          simp only [hcs, Res.err.injEq] at h
          subst h
          exact cloneSlots_err hrec _ _ e2 hcs
        | stuck => simp [hcs] at h
        | outOfFuel => simp [hcs] at h
      | str bs =>
        rw [deepCloneClosure] at h
        simp [deepClonePtr, hvis, hmem] at h
      | dataStruct t fs =>
        rw [deepCloneClosure] at h
        simp [deepClonePtr, hvis, hmem] at h
      | appData c vs =>
        rw [deepCloneClosure] at h
        simp [deepClonePtr, hvis, hmem] at h
      | bytecode =>
        rw [deepCloneClosure] at h
        simp [deepClonePtr, hvis, hmem] at h
      | externFn =>
        rw [deepCloneClosure] at h
        simp [deepClonePtr, hvis, hmem] at h
      | userObj =>
        rw [deepCloneClosure] at h
        simp [deepClonePtr, hvis, hmem] at h
      | threadObj =>
        rw [deepCloneClosure] at h
        simp [deepClonePtr, hvis, hmem] at h

theorem deepCloneApp_err {rec : Value → CloneSt → Res (Value × CloneSt)}
    (hrec : ∀ v s e, rec v s = .err e → e = uncloneableMsg) :
    ∀ (p : GcPtr) (s : CloneSt) (e : String),
      deepCloneApp rec p s = .err e → e = uncloneableMsg := by
  intro p s e h
  cases hvis : lookupVisited s.visited p.addr with
  | some w =>
    rw [deepCloneApp] at h
    simp only [deepClonePtr, hvis] at h
    cases w <;> simp at h
  | none =>
    cases hmem : lookupMem s.gc.mem p.addr with
    | none =>
      rw [deepCloneApp] at h
      simp [deepClonePtr, hvis, hmem] at h
    | some o =>
      cases o with
      | appData c vs =>
        rw [deepCloneApp_vacant hvis hmem] at h
        cases hcs : cloneSlots rec vs (appShellSt p s c vs) with
        | ok y => obtain ⟨nf, s2⟩ := y; simp [hcs] at h
        | err e2 =>
          simp only [hcs, Res.err.injEq] at h
          subst h
          exact cloneSlots_err hrec _ _ e2 hcs
        | stuck => simp [hcs] at h
        | outOfFuel => simp [hcs] at h
      | str bs =>
        rw [deepCloneApp] at h
        simp [deepClonePtr, hvis, hmem] at h
      | dataStruct t fs =>
        rw [deepCloneApp] at h
        simp [deepClonePtr, hvis, hmem] at h
      | closureData f us =>
        rw [deepCloneApp] at h
        simp [deepClonePtr, hvis, hmem] at h
      | bytecode =>
        rw [deepCloneApp] at h
        simp [deepClonePtr, hvis, hmem] at h
      | externFn =>
        rw [deepCloneApp] at h
        simp [deepClonePtr, hvis, hmem] at h
      | userObj =>
        rw [deepCloneApp] at h
        simp [deepClonePtr, hvis, hmem] at h
      | threadObj =>
        rw [deepCloneApp] at h
        simp [deepClonePtr, hvis, hmem] at h

theorem deepCloneStr_err : ∀ (p : GcPtr) (s : CloneSt) (e : String),
    deepCloneStr p s = .err e → e = uncloneableMsg := by
  intro p s e h
  cases hvis : lookupVisited s.visited p.addr with
  | some w =>
    rw [deepCloneStr_hit hvis] at h
    exact Res.noConfusion h
  | none =>
    cases hmem : lookupMem s.gc.mem p.addr with
    | none => simp [deepCloneStr, deepClonePtr, hvis, hmem] at h
    | some o =>
      cases o <;> simp [deepCloneStr, deepClonePtr, hvis, hmem, Gc.allocObj] at h

theorem deepClone_err : ∀ (fuel : Nat) (v : Value) (s : CloneSt) (e : String),
    deepClone fuel v s = .err e → e = uncloneableMsg := by
  intro fuel
  induction fuel with
  | zero =>
    intro v s e h
    exact Res.noConfusion h
  | succ n ih =>
    intro v s e h
    by_cases hg : v.generation ≤ s.gc.gen
    · rw [deepClone_le n hg] at h
      exact Res.noConfusion h
    · cases v with
      | Int i => exact absurd (Nat.zero_le _) hg
      | Float x => exact absurd (Nat.zero_le _) hg
      | String p =>
        rw [deepClone_str n hg] at h
        exact deepCloneStr_err p s e h
      | Data p =>
        rw [deepClone_data n hg] at h
        exact deepCloneData_err ih p s e (mapGc_err.1 h)
      | Closure p =>
        rw [deepClone_closure n hg] at h
        exact deepCloneClosure_err ih p s e (mapGc_err.1 h)
      | PartialApplication p =>
        rw [deepClone_app n hg] at h
        exact deepCloneApp_err ih p s e (mapGc_err.1 h)
      | Function p =>
        rw [deepClone_fn n hg] at h
        injection h with h'
        exact h'.symm
      | Userdata p =>
        rw [deepClone_ud n hg] at h
        injection h with h'
        exact h'.symm
      | Thread p =>
        rw [deepClone_th n hg] at h
        injection h with h'
        exact h'.symm

/-! ## Kind and constructor inversion lemmas -/

theorem kindOf_eq_one {o : HeapObj} (h : kindOf o = 1) :
    ∃ t fs, o = .dataStruct t fs := by
  cases o with
  | dataStruct t fs => exact ⟨t, fs, rfl⟩
  | str bs => simp [kindOf] at h
  | closureData f us => simp [kindOf] at h
  | appData c vs => simp [kindOf] at h
  | bytecode => simp [kindOf] at h
  | externFn => simp [kindOf] at h
  | userObj => simp [kindOf] at h
  | threadObj => simp [kindOf] at h

theorem kindOf_eq_zero {o : HeapObj} (h : kindOf o = 0) : ∃ bs, o = .str bs := by
  cases o with
  | str bs => exact ⟨bs, rfl⟩
  | dataStruct t fs => simp [kindOf] at h
  | closureData f us => simp [kindOf] at h
  | appData c vs => simp [kindOf] at h
  | bytecode => simp [kindOf] at h
  | externFn => simp [kindOf] at h
  | userObj => simp [kindOf] at h
  | threadObj => simp [kindOf] at h

theorem kindOf_eq_two {o : HeapObj} (h : kindOf o = 2) :
    ∃ f us, o = .closureData f us := by
  cases o with
  | closureData f us => exact ⟨f, us, rfl⟩
  | str bs => simp [kindOf] at h
  | dataStruct t fs => simp [kindOf] at h
  | appData c vs => simp [kindOf] at h
  | bytecode => simp [kindOf] at h
  | externFn => simp [kindOf] at h
  | userObj => simp [kindOf] at h
  | threadObj => simp [kindOf] at h

theorem kindOf_eq_three {o : HeapObj} (h : kindOf o = 3) :
    ∃ c vs, o = .appData c vs := by
  cases o with
  | appData c vs => exact ⟨c, vs, rfl⟩
  | str bs => simp [kindOf] at h
  | dataStruct t fs => simp [kindOf] at h
  | closureData f us => simp [kindOf] at h
  | bytecode => simp [kindOf] at h
  | externFn => simp [kindOf] at h
  | userObj => simp [kindOf] at h
  | threadObj => simp [kindOf] at h

theorem ctorIdx_eq_two {w : Value} (h : ctorIdx w = 2) : ∃ q, w = .String q := by
  cases w <;> first
    | exact ⟨_, rfl⟩
    | simp [ctorIdx] at h

theorem ctorIdx_eq_three {w : Value} (h : ctorIdx w = 3) : ∃ q, w = .Data q := by
  cases w <;> first
    | exact ⟨_, rfl⟩
    | simp [ctorIdx] at h

theorem ctorIdx_eq_five {w : Value} (h : ctorIdx w = 5) : ∃ q, w = .Closure q := by
  cases w <;> first
    | exact ⟨_, rfl⟩
    | simp [ctorIdx] at h

theorem ctorIdx_eq_six {w : Value} (h : ctorIdx w = 6) :
    ∃ q, w = .PartialApplication q := by
  cases w <;> first
    | exact ⟨_, rfl⟩
    | simp [ctorIdx] at h

/-- Destructing `valueWFb` for a `Data` value. -/
theorem valueWFb_data {m : Mem} {p : GcPtr}
    (h : valueWFb m (.Data p) = true) :
    ∃ t fs, lookupMem m p.addr = some (.dataStruct t fs) := by
  have h' : kindAt m p.addr = some 1 := by
    rw [valueWFb] at h
    exact eq_of_beq h
  rw [kindAt] at h'
  cases hm : lookupMem m p.addr with
  | none => rw [hm] at h'; cases h'
  | some o =>
    rw [hm] at h'
    obtain ⟨t, fs, rfl⟩ := kindOf_eq_one (Option.some.inj h')
    exact ⟨t, fs, rfl⟩

theorem valueWFb_str {m : Mem} {p : GcPtr}
    (h : valueWFb m (.String p) = true) :
    ∃ bs, lookupMem m p.addr = some (.str bs) := by
  have h' : kindAt m p.addr = some 0 := by
    rw [valueWFb] at h
    exact eq_of_beq h
  rw [kindAt] at h'
  cases hm : lookupMem m p.addr with
  | none => rw [hm] at h'; cases h'
  | some o =>
    rw [hm] at h'
    obtain ⟨bs, rfl⟩ := kindOf_eq_zero (Option.some.inj h')
    exact ⟨bs, rfl⟩

theorem valueWFb_closure {m : Mem} {p : GcPtr}
    (h : valueWFb m (.Closure p) = true) :
    ∃ f us, lookupMem m p.addr = some (.closureData f us) := by
  have h' : kindAt m p.addr = some 2 := by
    rw [valueWFb] at h
    exact eq_of_beq h
  rw [kindAt] at h'
  cases hm : lookupMem m p.addr with
  | none => rw [hm] at h'; cases h'
  | some o =>
    rw [hm] at h'
    obtain ⟨f, us, rfl⟩ := kindOf_eq_two (Option.some.inj h')
    exact ⟨f, us, rfl⟩

theorem valueWFb_app {m : Mem} {p : GcPtr}
    (h : valueWFb m (.PartialApplication p) = true) :
    ∃ c vs, lookupMem m p.addr = some (.appData c vs) := by
  have h' : kindAt m p.addr = some 3 := by
    rw [valueWFb] at h
    exact eq_of_beq h
  rw [kindAt] at h'
  cases hm : lookupMem m p.addr with
  | none => rw [hm] at h'; cases h'
  | some o =>
    rw [hm] at h'
    obtain ⟨c, vs, rfl⟩ := kindOf_eq_three (Option.some.inj h')
    exact ⟨c, vs, rfl⟩

theorem kindAt_mono {m m' : Mem}
    (h : ∀ a o, lookupMem m a = some o →
      ∃ o', lookupMem m' a = some o' ∧ kindOf o' = kindOf o)
    {a : Addr} {k : Nat} (hk : kindAt m a = some k) : kindAt m' a = some k := by
  rw [kindAt] at hk ⊢
  cases hm : lookupMem m a with
  | none => rw [hm] at hk; cases hk
  | some o =>
    rw [hm] at hk
    obtain ⟨o', ho', hko⟩ := h a o hm
    rw [ho']
    show some (kindOf o') = some k
    rw [hko]
    exact hk

theorem valueWFb_mono {m m' : Mem}
    (h : ∀ a o, lookupMem m a = some o →
      ∃ o', lookupMem m' a = some o' ∧ kindOf o' = kindOf o) :
    ∀ {v : Value}, valueWFb m v = true → valueWFb m' v = true := by
  intro v hv
  cases v with
  | Int i => rfl
  | Float x => rfl
  | Function p => rfl
  | Userdata p => rfl
  | Thread p => rfl
  | String p =>
    rw [valueWFb] at hv ⊢
    rw [kindAt_mono h (eq_of_beq hv)]
    exact beq_self_eq_true _
  | Data p =>
    rw [valueWFb] at hv ⊢
    rw [kindAt_mono h (eq_of_beq hv)]
    exact beq_self_eq_true _
  | Closure p =>
    rw [valueWFb] at hv ⊢
    rw [kindAt_mono h (eq_of_beq hv)]
    exact beq_self_eq_true _
  | PartialApplication p =>
    rw [valueWFb] at hv ⊢
    rw [kindAt_mono h (eq_of_beq hv)]
    exact beq_self_eq_true _

/-! ## Monotonicity of `settled`, `processed`, and composition of the
step postconditions -/

theorem settled_mono {s s' : CloneSt}
    (vis : ∀ a w, lookupVisited s.visited a = some w →
      lookupVisited s'.visited a = some w)
    (hg : s'.gc.gen = s.gc.gen) {w : Value} (h : settled s w) : settled s' w := by
  rcases h with h | ⟨a, ha, hs⟩
  · exact Or.inl (by rw [hg]; exact h)
  · obtain ⟨w₀, hw₀⟩ := Option.isSome_iff_exists.1 hs
    exact Or.inr ⟨a, ha, by rw [vis a w₀ hw₀]; rfl⟩

theorem visitedEntryOk_lt {B : Nat} {m : Mem} {q : Addr × Value}
    (h : visitedEntryOk B m q = true) : q.1 < B := by
  rw [visitedEntryOk, Bool.and_eq_true, Bool.and_eq_true] at h
  exact of_decide_eq_true h.1.1

theorem visitedEntryOk_wf {B : Nat} {m : Mem} {q : Addr × Value}
    (h : visitedEntryOk B m q = true) : valueWFb m q.2 = true := by
  rw [visitedEntryOk, Bool.and_eq_true, Bool.and_eq_true] at h
  exact h.1.2

theorem visitedEntryOk_match {B : Nat} {m : Mem} {q : Addr × Value}
    (h : visitedEntryOk B m q = true) :
    ∃ o, lookupMem m q.1 = some o ∧ variantMatchb o q.2 = true := by
  rw [visitedEntryOk, Bool.and_eq_true] at h
  have h2 := h.2
  cases hm : lookupMem m q.1 with
  | none => rw [hm] at h2; cases h2
  | some o =>
    rw [hm] at h2
    exact ⟨o, rfl, h2⟩

theorem processed_mono {B : Nat} {s s' : CloneSt} {a : Addr}
    (hp : StepPost B s s') (ha : a < B) (h : processed s a) : processed s' a := by
  intro o ho w hw
  rw [hp.memLow a ha] at ho
  exact settled_mono hp.visMono hp.genEq (h o ho w hw)

theorem StepPost.refl {B : Nat} {s : CloneSt} (hwf : MemWF B s) : StepPost B s s :=
  { wf := hwf
    visMono := fun _ _ h => h
    memLow := fun _ _ => Eq.refl _
    genEq := Eq.refl _
    nextMono := Nat.le_refl _
    kindPres := fun _ o h => ⟨o, h, Eq.refl _⟩
    muLe := Nat.le_refl _ }

theorem StepPost.trans {B : Nat} {s s1 s2 : CloneSt}
    (h1 : StepPost B s s1) (h2 : StepPost B s1 s2) : StepPost B s s2 :=
  { wf := h2.wf
    visMono := fun a w h => h2.visMono a w (h1.visMono a w h)
    memLow := fun a ha => (h2.memLow a ha).trans (h1.memLow a ha)
    genEq := h2.genEq.trans h1.genEq
    nextMono := Nat.le_trans h1.nextMono h2.nextMono
    kindPres := fun a o h => by
      obtain ⟨o1, ho1, hk1⟩ := h1.kindPres a o h
      obtain ⟨o2, ho2, hk2⟩ := h2.kindPres a o1 ho1
      exact ⟨o2, ho2, hk2.trans hk1⟩
    muLe := Nat.le_trans h2.muLe h1.muLe }

theorem newProcessed_refl {s : CloneSt} : NewProcessed s s := by
  intro a h1 h2
  rw [h1] at h2
  cases h2

theorem newProcessed_trans {B : Nat} {s s1 s2 : CloneSt}
    (p1 : StepPost B s s1) (p2 : StepPost B s1 s2)
    (n1 : NewProcessed s s1) (n2 : NewProcessed s1 s2) : NewProcessed s s2 := by
  intro a h1 h2
  cases hv1 : lookupVisited s1.visited a with
  | none => exact n2 a hv1 h2
  | some w =>
    have hproc := n1 a h1 (by rw [hv1]; rfl)
    have haB : a < B :=
      visitedEntryOk_lt (p1.wf.2.2.2.2.2 (a, w) (mem_of_lookupVisited hv1))
    exact processed_mono p2 haB hproc

/-! ## Counting lemmas for the unvisited-source measure `mu` -/

/-- The count only looks at keys and the visited map, so patching an
object leaves it unchanged. -/
theorem unvisitedCount_setMem (B : Nat) (vis : Visited) (a : Addr) (o : HeapObj) :
    ∀ m : Mem, unvisitedCount B vis (setMem m a o) = unvisitedCount B vis m := by
  intro m
  induction m with
  | nil => rfl
  | cons q m ih =>
    obtain ⟨c, o₀⟩ := q
    rw [setMem_cons]
    by_cases hc : c = a
    · subst hc
      rw [if_pos rfl, unvisitedCount, unvisitedCount, ih]
    · rw [if_neg hc, unvisitedCount, unvisitedCount, ih]

theorem mu_patch {B : Nat} (s : CloneSt) (a : Addr) (o : HeapObj) :
    mu B (patchSt s a o) = mu B s :=
  unvisitedCount_setMem B s.visited a o s.gc.mem

/-- Growing the visited map cannot grow the count. -/
theorem unvisitedCount_insert_le (B : Nat) (vis : Visited) (k : Addr) (w : Value) :
    ∀ m : Mem, unvisitedCount B ((k, w) :: vis) m ≤ unvisitedCount B vis m := by
  intro m
  induction m with
  | nil => exact Nat.le_refl _
  | cons q m ih =>
    rw [unvisitedCount, unvisitedCount]
    have hhead : (if q.1 < B ∧ lookupVisited ((k, w) :: vis) q.1 = none then 1 else 0) ≤
        (if q.1 < B ∧ lookupVisited vis q.1 = none then 1 else 0) := by
      by_cases h : q.1 < B ∧ lookupVisited ((k, w) :: vis) q.1 = none
      · rw [if_pos h]
        rw [lookupVisited_cons] at h
        by_cases hk : q.1 = k
        · rw [if_pos hk] at h
          cases h.2
        · rw [if_neg hk] at h
          rw [if_pos h]
      · rw [if_neg h]
        exact Nat.zero_le _
    exact Nat.add_le_add hhead ih

/-- Extending the visited map with a key absent from the memory keys
leaves the count unchanged. -/
theorem unvisitedCount_insert_notkey (B : Nat) (vis : Visited) (k : Addr) (w : Value) :
    ∀ m : Mem, (∀ q ∈ m, q.1 ≠ k) →
      unvisitedCount B ((k, w) :: vis) m = unvisitedCount B vis m := by
  intro m
  induction m with
  | nil => intro _; rfl
  | cons q m ih =>
    intro hk
    rw [unvisitedCount, unvisitedCount, lookupVisited_cons,
      if_neg (hk q (List.mem_cons_self q m)),
      ih (fun q' hq' => hk q' (List.mem_cons_of_mem q hq'))]

/-- Registering a live, previously unvisited source key drops the count
by exactly one. -/
theorem unvisitedCount_flip (B : Nat) (vis : Visited) (k : Addr) (w : Value)
    (hkB : k < B) (hkvis : lookupVisited vis k = none) :
    ∀ m : Mem, (m.map Prod.fst).Nodup → (lookupMem m k).isSome →
      unvisitedCount B ((k, w) :: vis) m + 1 = unvisitedCount B vis m := by
  intro m
  induction m with
  | nil =>
    intro _ h
    simp [lookupMem] at h
  | cons q m ih =>
    intro nodup hkmem
    obtain ⟨c, o₀⟩ := q
    rw [List.map_cons, List.nodup_cons] at nodup
    rw [unvisitedCount, unvisitedCount]
    by_cases hck : c = k
    · subst hck
      have h1 : lookupVisited ((c, w) :: vis) (c, o₀).1 = some w := by
        rw [lookupVisited_cons, if_pos rfl]
      have hnew : ¬ ((c, o₀).1 < B ∧
          lookupVisited ((c, w) :: vis) (c, o₀).1 = none) := by
        rw [h1]
        rintro ⟨-, hcc⟩
        cases hcc
      rw [if_neg hnew,
        if_pos (show (c, o₀).1 < B ∧ lookupVisited vis (c, o₀).1 = none from
          ⟨hkB, hkvis⟩)]
      have hnot : ∀ q ∈ m, q.1 ≠ c := by
        intro q hq hqc
        have hmm : Prod.fst q ∈ m.map Prod.fst := List.mem_map_of_mem Prod.fst hq
        rw [hqc] at hmm
        exact nodup.1 hmm
      rw [unvisitedCount_insert_notkey B vis c w m hnot]
      omega
    · have hmem' : (lookupMem m k).isSome := by
        rw [lookupMem_cons, if_neg (fun h => hck h.symm)] at hkmem
        exact hkmem
      have hhead : lookupVisited ((k, w) :: vis) (c, o₀).1 =
          lookupVisited vis (c, o₀).1 := by
        rw [lookupVisited_cons, if_neg hck]
      rw [hhead]
      have := ih nodup.2 hmem'
      omega

/-- An allocation at the cursor (≥ B) does not change the count. -/
theorem unvisitedCount_alloc (B : Nat) (vis : Visited) (n : Addr) (o : HeapObj)
    (h : ¬ n < B) (m : Mem) :
    unvisitedCount B vis ((n, o) :: m) = unvisitedCount B vis m := by
  rw [unvisitedCount, if_neg (fun hc => h hc.1), Nat.zero_add]

/-- The measure after a shell step: one less than before. -/
theorem mu_shell {B : Nat} (s : CloneSt) (k : Addr) (w : Value) (o : HeapObj)
    (nodup : (s.gc.mem.map Prod.fst).Nodup) (hkB : k < B) (hBn : B ≤ s.gc.next)
    (hkmem : (lookupMem s.gc.mem k).isSome)
    (hkvis : lookupVisited s.visited k = none) :
    mu B ⟨(k, w) :: s.visited,
      ⟨(s.gc.next, o) :: s.gc.mem, s.gc.gen, s.gc.next + 1⟩⟩ + 1 = mu B s := by
  rw [mu, mu]
  show unvisitedCount B ((k, w) :: s.visited) ((s.gc.next, o) :: s.gc.mem) + 1 =
    unvisitedCount B s.visited s.gc.mem
  rw [unvisitedCount_alloc B _ s.gc.next o (Nat.not_lt.mpr hBn) s.gc.mem]
  exact unvisitedCount_flip B s.visited k w hkB hkvis s.gc.mem nodup hkmem

/-! ## The patch loop as a relation -/

theorem cloneSlots_ok_slotsRel {rec : Value → CloneSt → Res (Value × CloneSt)} :
    ∀ {l : List Value} {s : CloneSt} {r : List Value} {s' : CloneSt},
      cloneSlots rec l s = .ok (r, s') → SlotsRel rec s l r s' := by
  intro l
  induction l with
  | nil =>
    intro s r s' h
    simp only [cloneSlots, Res.ok.injEq, Prod.mk.injEq] at h
    obtain ⟨h1, h2⟩ := h
    subst h1
    subst h2
    exact SlotsRel.nil s
  | cons v vs ih =>
    intro s r s' h
    rw [cloneSlots] at h
    cases hv : rec v s with
    | ok y =>
      obtain ⟨rv, s1⟩ := y
      simp only [hv] at h
      cases hcs : cloneSlots rec vs s1 with
      | ok y2 =>
        obtain ⟨rvs, s2⟩ := y2
        simp only [hcs, Res.ok.injEq, Prod.mk.injEq] at h
        obtain ⟨h1, h2⟩ := h
        subst h1
        subst h2
        exact SlotsRel.cons _ _ _ _ _ _ _ hv (ih hcs)
      | err e => simp [hcs] at h
      | stuck => simp [hcs] at h
      | outOfFuel => simp [hcs] at h
    | err e => simp [hv] at h
    | stuck => simp [hv] at h
    | outOfFuel => simp [hv] at h

theorem SlotsRel.length_eq {rec : Value → CloneSt → Res (Value × CloneSt)}
    {s : CloneSt} {l r : List Value} {s' : CloneSt}
    (h : SlotsRel rec s l r s') : r.length = l.length := by
  induction h with
  | nil s => rfl
  | cons s v rv s1 vs rvs s2 hv hrel ih => simp [ih]

/-! ## The shell step -/

theorem lookupMem_prepend_fresh {m : Mem} {n : Addr}
    (hb : ∀ q ∈ m, q.1 < n) {a : Addr} {o₀ : HeapObj}
    (h : lookupMem m a = some o₀) (o : HeapObj) :
    lookupMem ((n, o) :: m) a = some o₀ := by
  have ha : a < n := hb (a, o₀) (mem_of_lookupMem h)
  rw [lookupMem_cons, if_neg (Nat.ne_of_lt ha), h]

/-- The shell step: allocate the initialized shell at the cursor and
register the new reference under the source key *before* any recursion.
It preserves the invariant, satisfies every step postcondition, and
makes the unvisited-source measure drop by exactly one. -/
theorem shell_step {B : Nat} {s : CloneSt} {k : Addr} {srcObj : HeapObj}
    {w : Value} (o : HeapObj) (hwf : MemWF B s) (hkB : k < B)
    (hmem : lookupMem s.gc.mem k = some srcObj)
    (hvis : lookupVisited s.visited k = none)
    (hfields : ∀ x ∈ objFields o, valueWFb s.gc.mem x = true)
    (hwv : valueWFb ((s.gc.next, o) :: s.gc.mem) w = true)
    (hmatch : variantMatchb srcObj w = true) :
    StepPost B s ⟨(k, w) :: s.visited,
      ⟨(s.gc.next, o) :: s.gc.mem, s.gc.gen, s.gc.next + 1⟩⟩ ∧
    mu B (⟨(k, w) :: s.visited,
      ⟨(s.gc.next, o) :: s.gc.mem, s.gc.gen, s.gc.next + 1⟩⟩ : CloneSt) + 1 =
      mu B s := by
  obtain ⟨hnodup, hbound, hBn, hlow, hwfm, hvisok⟩ := hwf
  have hfresh : ∀ (a : Addr) (o₀ : HeapObj), lookupMem s.gc.mem a = some o₀ →
      lookupMem ((s.gc.next, o) :: s.gc.mem) a = some o₀ :=
    fun a o₀ h => lookupMem_prepend_fresh hbound h o
  have hkind : ∀ (a : Addr) (o₀ : HeapObj), lookupMem s.gc.mem a = some o₀ →
      ∃ o', lookupMem ((s.gc.next, o) :: s.gc.mem) a = some o' ∧
        kindOf o' = kindOf o₀ :=
    fun a o₀ h => ⟨o₀, hfresh a o₀ h, rfl⟩
  have hmemlow : ∀ a, a < B →
      lookupMem ((s.gc.next, o) :: s.gc.mem) a = lookupMem s.gc.mem a := by
    intro a ha
    rw [lookupMem_cons, if_neg (Nat.ne_of_lt (Nat.lt_of_lt_of_le ha hBn))]
  have hwf1 : MemWF B ⟨(k, w) :: s.visited,
      ⟨(s.gc.next, o) :: s.gc.mem, s.gc.gen, s.gc.next + 1⟩⟩ := by
    refine ⟨?_, ?_, ?_, ?_, ?_, ?_⟩
    · rw [List.map_cons, List.nodup_cons]
      refine ⟨fun hmm => ?_, hnodup⟩
      obtain ⟨q, hq, hq1⟩ := List.mem_map.1 hmm
      exact absurd hq1 (Nat.ne_of_lt (hbound q hq))
    · intro q hq
      rcases List.mem_cons.1 hq with h | h
      · rw [h]
        exact Nat.lt_succ_self _
      · exact Nat.lt_succ_of_lt (hbound q h)
    · exact Nat.le_succ_of_le hBn
    · intro q hq hqB x hx
      rcases List.mem_cons.1 hq with h | h
      · rw [h] at hqB
        exact absurd hqB (Nat.not_lt.mpr hBn)
      · exact hlow q h hqB x hx
    · intro q hq x hx
      rcases List.mem_cons.1 hq with h | h
      · subst h
        exact valueWFb_mono hkind (hfields x hx)
      · exact valueWFb_mono hkind (hwfm q h x hx)
    · intro q hq
      rcases List.mem_cons.1 hq with h | h
      · subst h
        rw [visitedEntryOk, Bool.and_eq_true, Bool.and_eq_true]
        refine ⟨⟨decide_eq_true hkB, hwv⟩, ?_⟩
        have hlk : lookupMem ((s.gc.next, o) :: s.gc.mem) k = some srcObj :=
          hfresh k srcObj hmem
        rw [hlk]
        exact hmatch
      · have hold := hvisok q h
        rw [visitedEntryOk, Bool.and_eq_true, Bool.and_eq_true] at hold ⊢
        obtain ⟨o₀, ho₀, hm₀⟩ := visitedEntryOk_match (hvisok q h)
        refine ⟨⟨hold.1.1, valueWFb_mono hkind hold.1.2⟩, ?_⟩
        rw [hfresh q.1 o₀ ho₀]
        exact hm₀
  have hmu : mu B (⟨(k, w) :: s.visited,
      ⟨(s.gc.next, o) :: s.gc.mem, s.gc.gen, s.gc.next + 1⟩⟩ : CloneSt) + 1 =
      mu B s :=
    mu_shell s k w o hnodup hkB hBn (by rw [hmem]; rfl) hvis
  refine ⟨?_, hmu⟩
  exact
    { wf := hwf1
      visMono := by
        intro a w₀ h
        rw [lookupVisited_cons, if_neg (fun hak => by
          rw [hak, hvis] at h
          cases h)]
        exact h
      memLow := hmemlow
      genEq := Eq.refl _
      nextMono := Nat.le_succ _
      kindPres := hkind
      muLe := Nat.le.intro hmu }

/-! ## The patch step -/

theorem mem_setMem {m : Mem} {a : Addr} {o : HeapObj} {q : Addr × HeapObj}
    (hq : q ∈ setMem m a o) : q = (a, o) ∨ (q ∈ m ∧ q.1 ≠ a) := by
  induction m with
  | nil => cases hq
  | cons q₀ m ih =>
    obtain ⟨c, o₀⟩ := q₀
    rw [setMem_cons] at hq
    rcases List.mem_cons.1 hq with h | h
    · by_cases hc : c = a
      · rw [if_pos hc] at h
        exact Or.inl h
      · rw [if_neg hc] at h
        subst h
        exact Or.inr ⟨List.mem_cons_self _ _, hc⟩
    · rcases ih h with h' | h'
      · exact Or.inl h'
      · exact Or.inr ⟨List.mem_cons_of_mem _ h'.1, h'.2⟩

theorem setMem_keys (m : Mem) (a : Addr) (o : HeapObj) :
    (setMem m a o).map Prod.fst = m.map Prod.fst := by
  induction m with
  | nil => rfl
  | cons q m ih =>
    obtain ⟨c, o₀⟩ := q
    rw [setMem_cons]
    by_cases hc : c = a
    · subst hc
      rw [if_pos rfl, List.map_cons, List.map_cons, ih]
    · rw [if_neg hc, List.map_cons, List.map_cons, ih]

/-- Overwriting the slots of a freshly allocated (≥ B) shell with the
cloned slots keeps the invariant and all step postconditions. -/
theorem patch_step {B : Nat} {s : CloneSt} {a : Addr} {o o₀ : HeapObj}
    (hwf : MemWF B s) (hBa : B ≤ a)
    (hmem : lookupMem s.gc.mem a = some o₀) (hk : kindOf o = kindOf o₀)
    (hfields : ∀ x ∈ objFields o, valueWFb s.gc.mem x = true) :
    StepPost B s (patchSt s a o) := by
  obtain ⟨hnodup, hbound, hBn, hlow, hwfm, hvisok⟩ := hwf
  have hkind : ∀ (b : Addr) (o₁ : HeapObj), lookupMem s.gc.mem b = some o₁ →
      ∃ o', lookupMem (setMem s.gc.mem a o) b = some o' ∧
        kindOf o' = kindOf o₁ := by
    intro b o₁ h
    by_cases hb : b = a
    · subst hb
      rw [h] at hmem
      cases hmem
      exact ⟨o, lookupMem_setMem_self _ _ _ _ h, hk⟩
    · exact ⟨o₁, by rw [lookupMem_setMem_ne _ _ _ _ hb, h], rfl⟩
  have hmemlow : ∀ b, b < B →
      lookupMem (setMem s.gc.mem a o) b = lookupMem s.gc.mem b := by
    intro b hb
    exact lookupMem_setMem_ne s.gc.mem a b o
      (Nat.ne_of_lt (Nat.lt_of_lt_of_le hb hBa))
  have hwf1 : MemWF B (patchSt s a o) := by
    refine ⟨?_, ?_, ?_, ?_, ?_, ?_⟩
    · rw [patchSt]
      show ((setMem s.gc.mem a o).map Prod.fst).Nodup
      rw [setMem_keys]
      exact hnodup
    · intro q hq
      rcases mem_setMem hq with h | h
      · rw [h]
        exact hbound (a, o₀) (mem_of_lookupMem hmem)
      · exact hbound q h.1
    · exact hBn
    · intro q hq hqB x hx
      rcases mem_setMem hq with h | h
      · rw [h] at hqB
        exact absurd hqB (by simpa using Nat.not_lt.mpr hBa)
      · exact hlow q h.1 hqB x hx
    · intro q hq x hx
      rcases mem_setMem hq with h | h
      · subst h
        exact valueWFb_mono hkind (hfields x hx)
      · exact valueWFb_mono hkind (hwfm q h.1 x hx)
    · intro q hq
      have hold := hvisok q hq
      rw [visitedEntryOk, Bool.and_eq_true, Bool.and_eq_true] at hold ⊢
      obtain ⟨o₁, ho₁, hm₁⟩ := visitedEntryOk_match (hvisok q hq)
      refine ⟨⟨hold.1.1, valueWFb_mono hkind hold.1.2⟩, ?_⟩
      have hlt : q.1 < B := of_decide_eq_true hold.1.1
      show (match lookupMem (setMem s.gc.mem a o) q.1 with
        | some o => variantMatchb o q.2
        | none => false) = true
      rw [hmemlow q.1 hlt, ho₁]
      exact hm₁
  exact
    { wf := hwf1
      visMono := fun _ _ h => h
      memLow := hmemlow
      genEq := Eq.refl _
      nextMono := Nat.le_refl _
      kindPres := hkind
      muLe := Nat.le_of_eq (mu_patch s a o) }

/-! ## The master lemma for the patch loop -/

theorem cloneSlots_master {B : Nat} {rec : Value → CloneSt → Res (Value × CloneSt)}
    (hrec : MSpec B rec) :
    ∀ (l : List Value) (s : CloneSt), MemWF B s →
      (∀ x ∈ l, valueWFb s.gc.mem x = true ∧ valueLowb B x = true) →
      cloneSlots rec l s ≠ .stuck ∧
      ∀ r s', cloneSlots rec l s = .ok (r, s') →
        StepPost B s s' ∧ NewProcessed s s' ∧
          (∀ x ∈ l, settled s' x) ∧
          (∀ y ∈ r, valueWFb s'.gc.mem y = true) ∧
          r.length = l.length := by
  intro l
  induction l with
  | nil =>
    intro s hwf hx
    constructor
    · intro h
      simp [cloneSlots] at h
    · intro r s' h
      simp only [cloneSlots, Res.ok.injEq, Prod.mk.injEq] at h
      obtain ⟨h1, h2⟩ := h
      subst h1
      subst h2
      exact ⟨StepPost.refl hwf, newProcessed_refl, by simp, by simp, rfl⟩
  | cons v vs ih =>
    intro s hwf hx
    have hhead := hrec v s hwf (hx v (List.mem_cons_self v vs)).1
      (hx v (List.mem_cons_self v vs)).2
    cases hrv : rec v s with
    | stuck => exact absurd hrv hhead.1
    | err e =>
      constructor
      · intro h
        rw [cloneSlots] at h
        simp [hrv] at h
      · intro r s' h
        rw [cloneSlots] at h
        simp [hrv] at h
    | outOfFuel =>
      constructor
      · intro h
        rw [cloneSlots] at h
        simp [hrv] at h
      · intro r s' h
        rw [cloneSlots] at h
        simp [hrv] at h
    | ok y =>
      obtain ⟨rv, s1⟩ := y
      obtain ⟨post1, new1, hwfr, hreg⟩ := hhead.2 rv s1 hrv
      have hx1 : ∀ x ∈ vs, valueWFb s1.gc.mem x = true ∧ valueLowb B x = true :=
        fun x hx' =>
          ⟨valueWFb_mono post1.kindPres (hx x (List.mem_cons_of_mem _ hx')).1,
            (hx x (List.mem_cons_of_mem _ hx')).2⟩
      have htail := ih s1 post1.wf hx1
      cases hcs : cloneSlots rec vs s1 with
      | stuck => exact absurd hcs htail.1
      | err e =>
        constructor
        · intro h
          rw [cloneSlots] at h
          simp [hrv, hcs] at h
        · intro r s' h
          rw [cloneSlots] at h
          simp [hrv, hcs] at h
      | outOfFuel =>
        constructor
        · intro h
          rw [cloneSlots] at h
          simp [hrv, hcs] at h
        · intro r s' h
          rw [cloneSlots] at h
          simp [hrv, hcs] at h
      | ok y2 =>
        obtain ⟨rvs, s2⟩ := y2
        obtain ⟨post2, new2, hsettled, hwfs, hlen⟩ := htail.2 rvs s2 hcs
        constructor
        · intro h
          rw [cloneSlots] at h
          simp [hrv, hcs] at h
        · intro r s' h
          rw [cloneSlots] at h
          simp only [hrv, hcs, Res.ok.injEq, Prod.mk.injEq] at h
          obtain ⟨h1, h2⟩ := h
          subst h1
          subst h2
          refine ⟨StepPost.trans post1 post2,
            newProcessed_trans post1 post2 new1 new2, ?_, ?_, ?_⟩
          · intro x hxm
            rcases List.mem_cons.1 hxm with h | h
            · subst h
              rw [Reg] at hreg
              by_cases hg : x.generation ≤ s.gc.gen
              · rw [if_pos hg] at hreg
                exact Or.inl (by rw [post2.genEq, post1.genEq]; exact hg)
              · rw [if_neg hg] at hreg
                obtain ⟨a, ha, hl, hctor⟩ := hreg
                refine Or.inr ⟨a, ha, ?_⟩
                rw [post2.visMono a rv hl]
                rfl
            · exact hsettled x h
          · intro y hy
            rcases List.mem_cons.1 hy with h | h
            · subst h
              exact valueWFb_mono post2.kindPres hwfr
            · exact hwfs y h
          · simp [hlen]

/-! ## Inversion of the visited-variant invariant -/

theorem variantMatchb_str {bs : List Nat} {w : Value}
    (h : variantMatchb (.str bs) w = true) : ∃ q, w = .String q := by
  simp only [variantMatchb, kindOf] at h
  exact ctorIdx_eq_two (eq_of_beq h)

theorem variantMatchb_data {t : VMTag} {fs : List Value} {w : Value}
    (h : variantMatchb (.dataStruct t fs) w = true) : ∃ q, w = .Data q := by
  simp only [variantMatchb, kindOf] at h
  exact ctorIdx_eq_three (eq_of_beq h)

theorem variantMatchb_closure {f : GcPtr} {us : List Value} {w : Value}
    (h : variantMatchb (.closureData f us) w = true) : ∃ q, w = .Closure q := by
  simp only [variantMatchb, kindOf] at h
  exact ctorIdx_eq_five (eq_of_beq h)

theorem variantMatchb_app {c : Callable} {vs : List Value} {w : Value}
    (h : variantMatchb (.appData c vs) w = true) :
    ∃ q, w = .PartialApplication q := by
  simp only [variantMatchb, kindOf] at h
  exact ctorIdx_eq_six (eq_of_beq h)

/-! ## Master lemmas for the kind-specific clone helpers -/

theorem deepCloneData_master {B : Nat} {rec : Value → CloneSt → Res (Value × CloneSt)}
    (hrec : MSpec B rec) (p : GcPtr) (s : CloneSt)
    (hwf : MemWF B s) (hv : valueWFb s.gc.mem (.Data p) = true)
    (hl : valueLowb B (.Data p) = true) :
    deepCloneData rec p s ≠ .stuck ∧
    ∀ q s', deepCloneData rec p s = .ok (q, s') →
      StepPost B s s' ∧ NewProcessed s s' ∧
        lookupVisited s'.visited p.addr = some (.Data q) ∧
        valueWFb s'.gc.mem (.Data q) = true := by
  obtain ⟨t, fs, hmem⟩ := valueWFb_data hv
  have hpB : p.addr < B := of_decide_eq_true hl
  cases hvis : lookupVisited s.visited p.addr with
  | some w =>
    have hentry := hwf.2.2.2.2.2 (p.addr, w) (mem_of_lookupVisited hvis)
    obtain ⟨o, ho, hmo⟩ := visitedEntryOk_match hentry
    rw [hmem] at ho
    cases ho
    obtain ⟨q, rfl⟩ := variantMatchb_data hmo
    rw [deepCloneData_hit hvis]
    constructor
    · intro h
      cases h
    · intro q' s' h
      rw [Res.ok.injEq, Prod.mk.injEq] at h
      obtain ⟨h1, h2⟩ := h
      subst h1
      subst h2
      exact ⟨StepPost.refl hwf, newProcessed_refl, hvis, visitedEntryOk_wf hentry⟩
  | none =>
    have hfields : ∀ x ∈ objFields (HeapObj.dataStruct t fs),
        valueWFb s.gc.mem x = true :=
      fun x hx => hwf.2.2.2.2.1 (p.addr, .dataStruct t fs) (mem_of_lookupMem hmem) x hx
    have hflow : ∀ x ∈ objFields (HeapObj.dataStruct t fs), valueLowb B x = true :=
      fun x hx =>
        hwf.2.2.2.1 (p.addr, .dataStruct t fs) (mem_of_lookupMem hmem) hpB x hx
    have hwv : valueWFb ((s.gc.next, HeapObj.dataStruct t fs) :: s.gc.mem)
        (Value.Data ⟨s.gc.next, s.gc.gen⟩) = true := by
      rw [valueWFb, kindAt, lookupMem_cons, if_pos rfl]
      rfl
    have hmatch : variantMatchb (HeapObj.dataStruct t fs)
        (Value.Data ⟨s.gc.next, s.gc.gen⟩) = true := rfl
    obtain ⟨hshell, hmu⟩ :=
      shell_step (HeapObj.dataStruct t fs) hwf hpB hmem hvis hfields hwv hmatch
    have hshellEq : dataShellSt p s t fs =
        (⟨(p.addr, Value.Data ⟨s.gc.next, s.gc.gen⟩) :: s.visited,
          ⟨(s.gc.next, HeapObj.dataStruct t fs) :: s.gc.mem, s.gc.gen,
            s.gc.next + 1⟩⟩ : CloneSt) := rfl
    have hfs1 : ∀ x ∈ fs, valueWFb (dataShellSt p s t fs).gc.mem x = true ∧
        valueLowb B x = true := by
      intro x hx
      rw [hshellEq]
      exact ⟨valueWFb_mono hshell.kindPres (hfields x hx), hflow x hx⟩
    have hcm := cloneSlots_master hrec fs (dataShellSt p s t fs)
      (hshellEq ▸ hshell.wf) hfs1
    have hshlk : lookupMem (dataShellSt p s t fs).gc.mem s.gc.next =
        some (HeapObj.dataStruct t fs) := by
      rw [hshellEq]
      show lookupMem ((s.gc.next, HeapObj.dataStruct t fs) :: s.gc.mem) s.gc.next =
        some (HeapObj.dataStruct t fs)
      rw [lookupMem_cons, if_pos rfl]
    have hshvis : lookupVisited (dataShellSt p s t fs).visited p.addr =
        some (Value.Data ⟨s.gc.next, s.gc.gen⟩) := by
      rw [hshellEq]
      show lookupVisited ((p.addr, Value.Data ⟨s.gc.next, s.gc.gen⟩) :: s.visited)
        p.addr = _
      rw [lookupVisited_cons, if_pos rfl]
    rw [deepCloneData_vacant hvis hmem]
    cases hcs : cloneSlots rec fs (dataShellSt p s t fs) with
    | stuck => exact absurd hcs hcm.1
    | err e =>
      constructor
      · intro h
        simp [hcs] at h
      · intro q s' h
        simp [hcs] at h
    | outOfFuel =>
      constructor
      · intro h
        simp [hcs] at h
      · intro q s' h
        simp [hcs] at h
    | ok y =>
      obtain ⟨nf, s2⟩ := y
      obtain ⟨post2, new2, hsettled, hwfs, hlen⟩ := hcm.2 nf s2 hcs
      have hshellPost : StepPost B s (dataShellSt p s t fs) := hshellEq ▸ hshell
      obtain ⟨o₂, ho₂, hk₂⟩ := post2.kindPres s.gc.next _ hshlk
      have hpatch : StepPost B s2
          (patchSt s2 s.gc.next (HeapObj.dataStruct t nf)) :=
        patch_step post2.wf hwf.2.2.1 ho₂
          (by rw [hk₂]; rfl) (fun x hx => hwfs x hx)
      have hvis2 : lookupVisited s2.visited p.addr =
          some (Value.Data ⟨s.gc.next, s.gc.gen⟩) :=
        post2.visMono p.addr _ hshvis
      constructor
      · intro h
        simp [hcs] at h
      · intro q s' h
        simp only [hcs, Res.ok.injEq, Prod.mk.injEq] at h
        obtain ⟨h1, h2⟩ := h
        subst h1
        subst h2
        refine ⟨StepPost.trans (StepPost.trans hshellPost post2) hpatch, ?_, ?_, ?_⟩
        · -- every newly visited address is processed
          intro a hnone hsome
          by_cases hap : a = p.addr
          · subst hap
            intro o ho x hx
            have hlowlk : lookupMem (patchSt s2 s.gc.next
                (HeapObj.dataStruct t nf)).gc.mem p.addr =
                some (HeapObj.dataStruct t fs) := by
              rw [hpatch.memLow p.addr hpB, post2.memLow p.addr hpB]
              rw [hshellEq]
              show lookupMem ((s.gc.next, HeapObj.dataStruct t fs) :: s.gc.mem)
                p.addr = some (HeapObj.dataStruct t fs)
              rw [lookupMem_cons,
                if_neg (Nat.ne_of_lt (Nat.lt_of_lt_of_le hpB hwf.2.2.1)), hmem]
            rw [hlowlk] at ho
            cases ho
            exact settled_mono hpatch.visMono hpatch.genEq (hsettled x hx)
          · have hnone1 : lookupVisited (dataShellSt p s t fs).visited a = none := by
              rw [hshellEq]
              show lookupVisited ((p.addr, Value.Data ⟨s.gc.next, s.gc.gen⟩) ::
                s.visited) a = none
              rw [lookupVisited_cons, if_neg hap]
              exact hnone
            have hproc2 := new2 a hnone1 hsome
            have haB : a < B := by
              obtain ⟨w', hw'⟩ := Option.isSome_iff_exists.1 hsome
              exact visitedEntryOk_lt
                (post2.wf.2.2.2.2.2 (a, w') (mem_of_lookupVisited hw'))
            exact processed_mono hpatch haB hproc2
        · exact hvis2
        · rw [valueWFb, kindAt]
          have : lookupMem (patchSt s2 s.gc.next
              (HeapObj.dataStruct t nf)).gc.mem s.gc.next =
              some (HeapObj.dataStruct t nf) :=
            lookupMem_setMem_self _ _ _ _ ho₂
          rw [this]
          rfl

theorem deepCloneClosure_master {B : Nat} {rec : Value → CloneSt → Res (Value × CloneSt)}
    (hrec : MSpec B rec) (p : GcPtr) (s : CloneSt)
    (hwf : MemWF B s) (hv : valueWFb s.gc.mem (.Closure p) = true)
    (hl : valueLowb B (.Closure p) = true) :
    deepCloneClosure rec p s ≠ .stuck ∧
    ∀ q s', deepCloneClosure rec p s = .ok (q, s') →
      StepPost B s s' ∧ NewProcessed s s' ∧
        lookupVisited s'.visited p.addr = some (.Closure q) ∧
        valueWFb s'.gc.mem (.Closure q) = true := by
  obtain ⟨f, us, hmem⟩ := valueWFb_closure hv
  have hpB : p.addr < B := of_decide_eq_true hl
  cases hvis : lookupVisited s.visited p.addr with
  | some w =>
    have hentry := hwf.2.2.2.2.2 (p.addr, w) (mem_of_lookupVisited hvis)
    obtain ⟨o, ho, hmo⟩ := visitedEntryOk_match hentry
    rw [hmem] at ho
    cases ho
    obtain ⟨q, rfl⟩ := variantMatchb_closure hmo
    rw [deepCloneClosure_hit hvis]
    constructor
    · intro h
      cases h
    · intro q' s' h
      rw [Res.ok.injEq, Prod.mk.injEq] at h
      obtain ⟨h1, h2⟩ := h
      subst h1
      subst h2
      exact ⟨StepPost.refl hwf, newProcessed_refl, hvis, visitedEntryOk_wf hentry⟩
  | none =>
    have hfields : ∀ x ∈ objFields (HeapObj.closureData f us),
        valueWFb s.gc.mem x = true :=
      fun x hx => hwf.2.2.2.2.1 (p.addr, .closureData f us) (mem_of_lookupMem hmem) x hx
    have hflow : ∀ x ∈ objFields (HeapObj.closureData f us), valueLowb B x = true :=
      fun x hx =>
        hwf.2.2.2.1 (p.addr, .closureData f us) (mem_of_lookupMem hmem) hpB x hx
    have hwv : valueWFb ((s.gc.next, HeapObj.closureData f us) :: s.gc.mem)
        (Value.Closure ⟨s.gc.next, s.gc.gen⟩) = true := by
      rw [valueWFb, kindAt, lookupMem_cons, if_pos rfl]
      rfl
    have hmatch : variantMatchb (HeapObj.closureData f us)
        (Value.Closure ⟨s.gc.next, s.gc.gen⟩) = true := rfl
    obtain ⟨hshell, hmu⟩ :=
      shell_step (HeapObj.closureData f us) hwf hpB hmem hvis hfields hwv hmatch
    have hshellEq : closureShellSt p s f us =
        (⟨(p.addr, Value.Closure ⟨s.gc.next, s.gc.gen⟩) :: s.visited,
          ⟨(s.gc.next, HeapObj.closureData f us) :: s.gc.mem, s.gc.gen,
            s.gc.next + 1⟩⟩ : CloneSt) := rfl
    have hfs1 : ∀ x ∈ us, valueWFb (closureShellSt p s f us).gc.mem x = true ∧
        valueLowb B x = true := by
      intro x hx
      rw [hshellEq]
      exact ⟨valueWFb_mono hshell.kindPres (hfields x hx), hflow x hx⟩
    have hcm := cloneSlots_master hrec us (closureShellSt p s f us)
      (hshellEq ▸ hshell.wf) hfs1
    have hshlk : lookupMem (closureShellSt p s f us).gc.mem s.gc.next =
        some (HeapObj.closureData f us) := by
      rw [hshellEq]
      show lookupMem ((s.gc.next, HeapObj.closureData f us) :: s.gc.mem) s.gc.next =
        some (HeapObj.closureData f us)
      rw [lookupMem_cons, if_pos rfl]
    have hshvis : lookupVisited (closureShellSt p s f us).visited p.addr =
        some (Value.Closure ⟨s.gc.next, s.gc.gen⟩) := by
      rw [hshellEq]
      show lookupVisited ((p.addr, Value.Closure ⟨s.gc.next, s.gc.gen⟩) :: s.visited)
        p.addr = _
      rw [lookupVisited_cons, if_pos rfl]
    rw [deepCloneClosure_vacant hvis hmem]
    cases hcs : cloneSlots rec us (closureShellSt p s f us) with
    | stuck => exact absurd hcs hcm.1
    | err e =>
      constructor
      · intro h
        simp [hcs] at h
      · intro q s' h
        simp [hcs] at h
    | outOfFuel =>
      constructor
      · intro h
        simp [hcs] at h
      · intro q s' h
        simp [hcs] at h
    | ok y =>
      obtain ⟨nf, s2⟩ := y
      obtain ⟨post2, new2, hsettled, hwfs, hlen⟩ := hcm.2 nf s2 hcs
      have hshellPost : StepPost B s (closureShellSt p s f us) := hshellEq ▸ hshell
      obtain ⟨o₂, ho₂, hk₂⟩ := post2.kindPres s.gc.next _ hshlk
      have hpatch : StepPost B s2
          (patchSt s2 s.gc.next (HeapObj.closureData f nf)) :=
        patch_step post2.wf hwf.2.2.1 ho₂
          (by rw [hk₂]; rfl) (fun x hx => hwfs x hx)
      have hvis2 : lookupVisited s2.visited p.addr =
          some (Value.Closure ⟨s.gc.next, s.gc.gen⟩) :=
        post2.visMono p.addr _ hshvis
      constructor
      · intro h
        simp [hcs] at h
      · intro q s' h
        simp only [hcs, Res.ok.injEq, Prod.mk.injEq] at h
        obtain ⟨h1, h2⟩ := h
        subst h1
        subst h2
        refine ⟨StepPost.trans (StepPost.trans hshellPost post2) hpatch, ?_, ?_, ?_⟩
        · -- every newly visited address is processed
          intro a hnone hsome
          by_cases hap : a = p.addr
          · subst hap
            intro o ho x hx
            have hlowlk : lookupMem (patchSt s2 s.gc.next
                (HeapObj.closureData f nf)).gc.mem p.addr =
                some (HeapObj.closureData f us) := by
              rw [hpatch.memLow p.addr hpB, post2.memLow p.addr hpB]
              rw [hshellEq]
              show lookupMem ((s.gc.next, HeapObj.closureData f us) :: s.gc.mem)
                p.addr = some (HeapObj.closureData f us)
              rw [lookupMem_cons,
                if_neg (Nat.ne_of_lt (Nat.lt_of_lt_of_le hpB hwf.2.2.1)), hmem]
            rw [hlowlk] at ho
            cases ho
            exact settled_mono hpatch.visMono hpatch.genEq (hsettled x hx)
          · have hnone1 : lookupVisited (closureShellSt p s f us).visited a = none := by
              rw [hshellEq]
              show lookupVisited ((p.addr, Value.Closure ⟨s.gc.next, s.gc.gen⟩) ::
                s.visited) a = none
              rw [lookupVisited_cons, if_neg hap]
              exact hnone
            have hproc2 := new2 a hnone1 hsome
            have haB : a < B := by
              obtain ⟨w', hw'⟩ := Option.isSome_iff_exists.1 hsome
              exact visitedEntryOk_lt
                (post2.wf.2.2.2.2.2 (a, w') (mem_of_lookupVisited hw'))
            exact processed_mono hpatch haB hproc2
        · exact hvis2
        · rw [valueWFb, kindAt]
          have : lookupMem (patchSt s2 s.gc.next
              (HeapObj.closureData f nf)).gc.mem s.gc.next =
              some (HeapObj.closureData f nf) :=
            lookupMem_setMem_self _ _ _ _ ho₂
          rw [this]
          rfl


theorem deepCloneApp_master {B : Nat} {rec : Value → CloneSt → Res (Value × CloneSt)}
    (hrec : MSpec B rec) (p : GcPtr) (s : CloneSt)
    (hwf : MemWF B s) (hv : valueWFb s.gc.mem (.PartialApplication p) = true)
    (hl : valueLowb B (.PartialApplication p) = true) :
    deepCloneApp rec p s ≠ .stuck ∧
    ∀ q s', deepCloneApp rec p s = .ok (q, s') →
      StepPost B s s' ∧ NewProcessed s s' ∧
        lookupVisited s'.visited p.addr = some (.PartialApplication q) ∧
        valueWFb s'.gc.mem (.PartialApplication q) = true := by
  obtain ⟨c, vs, hmem⟩ := valueWFb_app hv
  have hpB : p.addr < B := of_decide_eq_true hl
  cases hvis : lookupVisited s.visited p.addr with
  | some w =>
    have hentry := hwf.2.2.2.2.2 (p.addr, w) (mem_of_lookupVisited hvis)
    obtain ⟨o, ho, hmo⟩ := visitedEntryOk_match hentry
    rw [hmem] at ho
    cases ho
    obtain ⟨q, rfl⟩ := variantMatchb_app hmo
    rw [deepCloneApp_hit hvis]
    constructor
    · intro h
      cases h
    · intro q' s' h
      rw [Res.ok.injEq, Prod.mk.injEq] at h
      obtain ⟨h1, h2⟩ := h
      subst h1
      subst h2
      exact ⟨StepPost.refl hwf, newProcessed_refl, hvis, visitedEntryOk_wf hentry⟩
  | none =>
    have hfields : ∀ x ∈ objFields (HeapObj.appData c vs),
        valueWFb s.gc.mem x = true :=
      fun x hx => hwf.2.2.2.2.1 (p.addr, .appData c vs) (mem_of_lookupMem hmem) x hx
    have hflow : ∀ x ∈ objFields (HeapObj.appData c vs), valueLowb B x = true :=
      fun x hx =>
        hwf.2.2.2.1 (p.addr, .appData c vs) (mem_of_lookupMem hmem) hpB x hx
    have hwv : valueWFb ((s.gc.next, HeapObj.appData c vs) :: s.gc.mem)
        (Value.PartialApplication ⟨s.gc.next, s.gc.gen⟩) = true := by
      rw [valueWFb, kindAt, lookupMem_cons, if_pos rfl]
      rfl
    have hmatch : variantMatchb (HeapObj.appData c vs)
        (Value.PartialApplication ⟨s.gc.next, s.gc.gen⟩) = true := rfl
    obtain ⟨hshell, hmu⟩ :=
      shell_step (HeapObj.appData c vs) hwf hpB hmem hvis hfields hwv hmatch
    have hshellEq : appShellSt p s c vs =
        (⟨(p.addr, Value.PartialApplication ⟨s.gc.next, s.gc.gen⟩) :: s.visited,
          ⟨(s.gc.next, HeapObj.appData c vs) :: s.gc.mem, s.gc.gen,
            s.gc.next + 1⟩⟩ : CloneSt) := rfl
    have hfs1 : ∀ x ∈ vs, valueWFb (appShellSt p s c vs).gc.mem x = true ∧
        valueLowb B x = true := by
      intro x hx
      rw [hshellEq]
      exact ⟨valueWFb_mono hshell.kindPres (hfields x hx), hflow x hx⟩
    have hcm := cloneSlots_master hrec vs (appShellSt p s c vs)
      (hshellEq ▸ hshell.wf) hfs1
    have hshlk : lookupMem (appShellSt p s c vs).gc.mem s.gc.next =
        some (HeapObj.appData c vs) := by
      rw [hshellEq]
      show lookupMem ((s.gc.next, HeapObj.appData c vs) :: s.gc.mem) s.gc.next =
        some (HeapObj.appData c vs)
      rw [lookupMem_cons, if_pos rfl]
    have hshvis : lookupVisited (appShellSt p s c vs).visited p.addr =
        some (Value.PartialApplication ⟨s.gc.next, s.gc.gen⟩) := by
      rw [hshellEq]
      show lookupVisited ((p.addr, Value.PartialApplication ⟨s.gc.next, s.gc.gen⟩) :: s.visited)
        p.addr = _
      rw [lookupVisited_cons, if_pos rfl]
    rw [deepCloneApp_vacant hvis hmem]
    cases hcs : cloneSlots rec vs (appShellSt p s c vs) with
    | stuck => exact absurd hcs hcm.1
    | err e =>
      constructor
      · intro h
        simp [hcs] at h
      · intro q s' h
        simp [hcs] at h
    | outOfFuel =>
      constructor
      · intro h
        simp [hcs] at h
      · intro q s' h
        simp [hcs] at h
    | ok y =>
      obtain ⟨nf, s2⟩ := y
      obtain ⟨post2, new2, hsettled, hwfs, hlen⟩ := hcm.2 nf s2 hcs
      have hshellPost : StepPost B s (appShellSt p s c vs) := hshellEq ▸ hshell
      obtain ⟨o₂, ho₂, hk₂⟩ := post2.kindPres s.gc.next _ hshlk
      have hpatch : StepPost B s2
          (patchSt s2 s.gc.next (HeapObj.appData c nf)) :=
        patch_step post2.wf hwf.2.2.1 ho₂
          (by rw [hk₂]; rfl) (fun x hx => hwfs x hx)
      have hvis2 : lookupVisited s2.visited p.addr =
          some (Value.PartialApplication ⟨s.gc.next, s.gc.gen⟩) :=
        post2.visMono p.addr _ hshvis
      constructor
      · intro h
        simp [hcs] at h
      · intro q s' h
        simp only [hcs, Res.ok.injEq, Prod.mk.injEq] at h
        obtain ⟨h1, h2⟩ := h
        subst h1
        subst h2
        refine ⟨StepPost.trans (StepPost.trans hshellPost post2) hpatch, ?_, ?_, ?_⟩
        · -- every newly visited address is processed
          intro a hnone hsome
          by_cases hap : a = p.addr
          · subst hap
            intro o ho x hx
            have hlowlk : lookupMem (patchSt s2 s.gc.next
                (HeapObj.appData c nf)).gc.mem p.addr =
                some (HeapObj.appData c vs) := by
              rw [hpatch.memLow p.addr hpB, post2.memLow p.addr hpB]
              rw [hshellEq]
              show lookupMem ((s.gc.next, HeapObj.appData c vs) :: s.gc.mem)
                p.addr = some (HeapObj.appData c vs)
              rw [lookupMem_cons,
                if_neg (Nat.ne_of_lt (Nat.lt_of_lt_of_le hpB hwf.2.2.1)), hmem]
            rw [hlowlk] at ho
            cases ho
            exact settled_mono hpatch.visMono hpatch.genEq (hsettled x hx)
          · have hnone1 : lookupVisited (appShellSt p s c vs).visited a = none := by
              rw [hshellEq]
              show lookupVisited ((p.addr, Value.PartialApplication ⟨s.gc.next, s.gc.gen⟩) ::
                s.visited) a = none
              rw [lookupVisited_cons, if_neg hap]
              exact hnone
            have hproc2 := new2 a hnone1 hsome
            have haB : a < B := by
              obtain ⟨w', hw'⟩ := Option.isSome_iff_exists.1 hsome
              exact visitedEntryOk_lt
                (post2.wf.2.2.2.2.2 (a, w') (mem_of_lookupVisited hw'))
            exact processed_mono hpatch haB hproc2
        · exact hvis2
        · rw [valueWFb, kindAt]
          have : lookupMem (patchSt s2 s.gc.next
              (HeapObj.appData c nf)).gc.mem s.gc.next =
              some (HeapObj.appData c nf) :=
            lookupMem_setMem_self _ _ _ _ ho₂
          rw [this]
          rfl

theorem deepCloneStr_master {B : Nat} (p : GcPtr) (s : CloneSt)
    (hwf : MemWF B s) (hv : valueWFb s.gc.mem (.String p) = true)
    (hl : valueLowb B (.String p) = true) :
    deepCloneStr p s ≠ .stuck ∧
    ∀ r s', deepCloneStr p s = .ok (r, s') →
      StepPost B s s' ∧ NewProcessed s s' ∧
        lookupVisited s'.visited p.addr = some r ∧
        ctorIdx r = 2 ∧
        valueWFb s'.gc.mem r = true := by
  obtain ⟨bs, hmem⟩ := valueWFb_str hv
  have hpB : p.addr < B := of_decide_eq_true hl
  cases hvis : lookupVisited s.visited p.addr with
  | some w =>
    have hentry := hwf.2.2.2.2.2 (p.addr, w) (mem_of_lookupVisited hvis)
    obtain ⟨o, ho, hmo⟩ := visitedEntryOk_match hentry
    rw [hmem] at ho
    cases ho
    obtain ⟨q, rfl⟩ := variantMatchb_str hmo
    rw [deepCloneStr_hit hvis]
    constructor
    · intro h
      cases h
    · intro r s' h
      rw [Res.ok.injEq, Prod.mk.injEq] at h
      obtain ⟨h1, h2⟩ := h
      subst h1
      subst h2
      exact ⟨StepPost.refl hwf, newProcessed_refl, hvis, rfl,
        visitedEntryOk_wf hentry⟩
  | none =>
    have hfields : ∀ x ∈ objFields (HeapObj.str bs), valueWFb s.gc.mem x = true := by
      intro x hx
      cases hx
    have hwv : valueWFb ((s.gc.next, HeapObj.str bs) :: s.gc.mem)
        (Value.String ⟨s.gc.next, s.gc.gen⟩) = true := by
      rw [valueWFb, kindAt, lookupMem_cons, if_pos rfl]
      rfl
    have hmatch : variantMatchb (HeapObj.str bs)
        (Value.String ⟨s.gc.next, s.gc.gen⟩) = true := rfl
    obtain ⟨hshell, hmu⟩ :=
      shell_step (HeapObj.str bs) hwf hpB hmem hvis hfields hwv hmatch
    rw [deepCloneStr_vacant hvis hmem]
    constructor
    · intro h
      cases h
    · intro r s' h
      rw [Res.ok.injEq, Prod.mk.injEq] at h
      obtain ⟨h1, h2⟩ := h
      subst h1
      subst h2
      refine ⟨hshell, ?_, ?_, rfl, ?_⟩
      · intro a hnone hsome
        by_cases hap : a = p.addr
        · subst hap
          intro o ho x hx
          have hlk : lookupMem ((s.gc.next, HeapObj.str bs) :: s.gc.mem) p.addr =
              some (HeapObj.str bs) := by
            rw [lookupMem_cons,
              if_neg (Nat.ne_of_lt (Nat.lt_of_lt_of_le hpB hwf.2.2.1)), hmem]
          rw [show ((⟨(p.addr, Value.String ⟨s.gc.next, s.gc.gen⟩) :: s.visited,
            ⟨(s.gc.next, HeapObj.str bs) :: s.gc.mem, s.gc.gen,
              s.gc.next + 1⟩⟩ : CloneSt)).gc.mem =
            (s.gc.next, HeapObj.str bs) :: s.gc.mem from rfl, hlk] at ho
          cases ho
          cases hx
        · have : lookupVisited ((p.addr, Value.String ⟨s.gc.next, s.gc.gen⟩) ::
              s.visited) a = none := by
            rw [lookupVisited_cons, if_neg hap]
            exact hnone
          rw [show ((⟨(p.addr, Value.String ⟨s.gc.next, s.gc.gen⟩) :: s.visited,
            ⟨(s.gc.next, HeapObj.str bs) :: s.gc.mem, s.gc.gen,
              s.gc.next + 1⟩⟩ : CloneSt)).visited =
            (p.addr, Value.String ⟨s.gc.next, s.gc.gen⟩) :: s.visited from rfl,
            this] at hsome
          cases hsome
      · show lookupVisited ((p.addr, Value.String ⟨s.gc.next, s.gc.gen⟩) ::
          s.visited) p.addr = _
        rw [lookupVisited_cons, if_pos rfl]
      · rw [valueWFb, kindAt]
        show ((lookupMem ((s.gc.next, HeapObj.str bs) :: s.gc.mem)
          s.gc.next).map kindOf == some 0) = true
        rw [lookupMem_cons, if_pos rfl]
        rfl

/-- Preparation facts for the data shell step. -/
theorem dataShell_prep {B : Nat} {p : GcPtr} {s : CloneSt} {t : VMTag}
    {fs : List Value} (hwf : MemWF B s) (hpB : p.addr < B)
    (hmem : lookupMem s.gc.mem p.addr = some (.dataStruct t fs))
    (hvis : lookupVisited s.visited p.addr = none) :
    StepPost B s (dataShellSt p s t fs) ∧
    mu B (dataShellSt p s t fs) + 1 = mu B s ∧
    ∀ x ∈ fs, valueWFb (dataShellSt p s t fs).gc.mem x = true ∧
      valueLowb B x = true := by
  have hfields : ∀ x ∈ objFields (HeapObj.dataStruct t fs),
      valueWFb s.gc.mem x = true :=
    fun x hx => hwf.2.2.2.2.1 (p.addr, .dataStruct t fs) (mem_of_lookupMem hmem) x hx
  have hflow : ∀ x ∈ objFields (HeapObj.dataStruct t fs), valueLowb B x = true :=
    fun x hx =>
      hwf.2.2.2.1 (p.addr, .dataStruct t fs) (mem_of_lookupMem hmem) hpB x hx
  have hwv : valueWFb ((s.gc.next, HeapObj.dataStruct t fs) :: s.gc.mem)
      (Value.Data ⟨s.gc.next, s.gc.gen⟩) = true := by
    rw [valueWFb, kindAt, lookupMem_cons, if_pos rfl]
    rfl
  obtain ⟨hshell, hmu⟩ :=
    shell_step (HeapObj.dataStruct t fs) hwf hpB hmem hvis hfields hwv rfl
  exact ⟨hshell, hmu,
    fun x hx => ⟨valueWFb_mono hshell.kindPres (hfields x hx), hflow x hx⟩⟩

/-- Preparation facts for the closure shell step. -/
theorem closureShell_prep {B : Nat} {p : GcPtr} {s : CloneSt} {f : GcPtr}
    {us : List Value} (hwf : MemWF B s) (hpB : p.addr < B)
    (hmem : lookupMem s.gc.mem p.addr = some (.closureData f us))
    (hvis : lookupVisited s.visited p.addr = none) :
    StepPost B s (closureShellSt p s f us) ∧
    mu B (closureShellSt p s f us) + 1 = mu B s ∧
    ∀ x ∈ us, valueWFb (closureShellSt p s f us).gc.mem x = true ∧
      valueLowb B x = true := by
  have hfields : ∀ x ∈ objFields (HeapObj.closureData f us),
      valueWFb s.gc.mem x = true :=
    fun x hx => hwf.2.2.2.2.1 (p.addr, .closureData f us) (mem_of_lookupMem hmem) x hx
  have hflow : ∀ x ∈ objFields (HeapObj.closureData f us), valueLowb B x = true :=
    fun x hx =>
      hwf.2.2.2.1 (p.addr, .closureData f us) (mem_of_lookupMem hmem) hpB x hx
  have hwv : valueWFb ((s.gc.next, HeapObj.closureData f us) :: s.gc.mem)
      (Value.Closure ⟨s.gc.next, s.gc.gen⟩) = true := by
    rw [valueWFb, kindAt, lookupMem_cons, if_pos rfl]
    rfl
  obtain ⟨hshell, hmu⟩ :=
    shell_step (HeapObj.closureData f us) hwf hpB hmem hvis hfields hwv rfl
  exact ⟨hshell, hmu,
    fun x hx => ⟨valueWFb_mono hshell.kindPres (hfields x hx), hflow x hx⟩⟩

/-- Preparation facts for the partial-application shell step. -/
theorem appShell_prep {B : Nat} {p : GcPtr} {s : CloneSt} {c : Callable}
    {vs : List Value} (hwf : MemWF B s) (hpB : p.addr < B)
    (hmem : lookupMem s.gc.mem p.addr = some (.appData c vs))
    (hvis : lookupVisited s.visited p.addr = none) :
    StepPost B s (appShellSt p s c vs) ∧
    mu B (appShellSt p s c vs) + 1 = mu B s ∧
    ∀ x ∈ vs, valueWFb (appShellSt p s c vs).gc.mem x = true ∧
      valueLowb B x = true := by
  have hfields : ∀ x ∈ objFields (HeapObj.appData c vs),
      valueWFb s.gc.mem x = true :=
    fun x hx => hwf.2.2.2.2.1 (p.addr, .appData c vs) (mem_of_lookupMem hmem) x hx
  have hflow : ∀ x ∈ objFields (HeapObj.appData c vs), valueLowb B x = true :=
    fun x hx =>
      hwf.2.2.2.1 (p.addr, .appData c vs) (mem_of_lookupMem hmem) hpB x hx
  have hwv : valueWFb ((s.gc.next, HeapObj.appData c vs) :: s.gc.mem)
      (Value.PartialApplication ⟨s.gc.next, s.gc.gen⟩) = true := by
    rw [valueWFb, kindAt, lookupMem_cons, if_pos rfl]
    rfl
  obtain ⟨hshell, hmu⟩ :=
    shell_step (HeapObj.appData c vs) hwf hpB hmem hvis hfields hwv rfl
  exact ⟨hshell, hmu,
    fun x hx => ⟨valueWFb_mono hshell.kindPres (hfields x hx), hflow x hx⟩⟩

/-! ## The master specification of `deep_clone` -/

theorem deepClone_mspec : ∀ (fuel B : Nat), MSpec B (deepClone fuel) := by
  intro fuel
  induction fuel with
  | zero =>
    intro B v s hwf hv hl
    rw [deepClone_zero]
    exact ⟨fun h => Res.noConfusion h, fun r s' h => Res.noConfusion h⟩
  | succ n ih =>
    intro B v s hwf hv hl
    by_cases hg : v.generation ≤ s.gc.gen
    · rw [deepClone_le n hg]
      constructor
      · intro h
        cases h
      · intro r s' h
        rw [Res.ok.injEq, Prod.mk.injEq] at h
        obtain ⟨h1, h2⟩ := h
        subst h1
        subst h2
        refine ⟨StepPost.refl hwf, newProcessed_refl, hv, ?_⟩
        rw [Reg, if_pos hg]
    · cases v with
      | Int i => exact absurd (Nat.zero_le _) hg
      | Float x => exact absurd (Nat.zero_le _) hg
      | Function p =>
        rw [deepClone_fn n hg]
        exact ⟨fun h => Res.noConfusion h, fun r s' h => Res.noConfusion h⟩
      | Userdata p =>
        rw [deepClone_ud n hg]
        exact ⟨fun h => Res.noConfusion h, fun r s' h => Res.noConfusion h⟩
      | Thread p =>
        rw [deepClone_th n hg]
        exact ⟨fun h => Res.noConfusion h, fun r s' h => Res.noConfusion h⟩
      | String p =>
        rw [deepClone_str n hg]
        have hm := deepCloneStr_master p s hwf hv hl
        refine ⟨hm.1, ?_⟩
        intro r s' h
        obtain ⟨post, newp, hlk, hctor, hwfr⟩ := hm.2 r s' h
        refine ⟨post, newp, hwfr, ?_⟩
        rw [Reg, if_neg hg]
        exact ⟨p.addr, rfl, hlk, by rw [hctor]; rfl⟩
      | Data p =>
        rw [deepClone_data n hg]
        have hm := deepCloneData_master (ih B) p s hwf hv hl
        constructor
        · intro h
          exact hm.1 (mapGc_stuck.1 h)
        · intro r s' h
          obtain ⟨q, hq, hr⟩ := mapGc_ok.1 h
          subst hr
          obtain ⟨post, newp, hlk, hwfr⟩ := hm.2 q s' hq
          refine ⟨post, newp, hwfr, ?_⟩
          rw [Reg, if_neg hg]
          exact ⟨p.addr, rfl, hlk, rfl⟩
      | Closure p =>
        rw [deepClone_closure n hg]
        have hm := deepCloneClosure_master (ih B) p s hwf hv hl
        constructor
        · intro h
          exact hm.1 (mapGc_stuck.1 h)
        · intro r s' h
          obtain ⟨q, hq, hr⟩ := mapGc_ok.1 h
          subst hr
          obtain ⟨post, newp, hlk, hwfr⟩ := hm.2 q s' hq
          refine ⟨post, newp, hwfr, ?_⟩
          rw [Reg, if_neg hg]
          exact ⟨p.addr, rfl, hlk, rfl⟩
      | PartialApplication p =>
        rw [deepClone_app n hg]
        have hm := deepCloneApp_master (ih B) p s hwf hv hl
        constructor
        · intro h
          exact hm.1 (mapGc_stuck.1 h)
        · intro r s' h
          obtain ⟨q, hq, hr⟩ := mapGc_ok.1 h
          subst hr
          obtain ⟨post, newp, hlk, hwfr⟩ := hm.2 q s' hq
          refine ⟨post, newp, hwfr, ?_⟩
          rw [Reg, if_neg hg]
          exact ⟨p.addr, rfl, hlk, rfl⟩

/-! ## Termination: the unvisited-source measure bounds the recursion
depth, so `deep_clone` terminates on every well-formed value graph,
cyclic ones included -/

theorem deepCloneStr_no_fuel (p : GcPtr) (s : CloneSt) :
    deepCloneStr p s ≠ .outOfFuel := by
  intro h
  cases hvis : lookupVisited s.visited p.addr with
  | some w =>
    rw [deepCloneStr_hit hvis] at h
    exact Res.noConfusion h
  | none =>
    cases hmem : lookupMem s.gc.mem p.addr with
    | none => simp [deepCloneStr, deepClonePtr, hvis, hmem] at h
    | some o =>
      cases o <;> simp [deepCloneStr, deepClonePtr, hvis, hmem, Gc.allocObj] at h

theorem cloneSlots_no_fuel_out {B n : Nat}
    (hterm : ∀ v s, MemWF B s → valueWFb s.gc.mem v = true →
      valueLowb B v = true → mu B s < n → deepClone n v s ≠ .outOfFuel) :
    ∀ (l : List Value) (s : CloneSt), MemWF B s →
      (∀ x ∈ l, valueWFb s.gc.mem x = true ∧ valueLowb B x = true) →
      mu B s < n → cloneSlots (deepClone n) l s ≠ .outOfFuel := by
  intro l
  induction l with
  | nil =>
    intro s _ _ _ h
    simp [cloneSlots] at h
  | cons v vs ih =>
    intro s hwf hx hmu h
    rw [cloneSlots] at h
    cases hv : deepClone n v s with
    | ok y =>
      obtain ⟨rv, s1⟩ := y
      simp only [hv] at h
      obtain ⟨post1, _, _, _⟩ :=
        (deepClone_mspec n B v s hwf (hx v (List.mem_cons_self v vs)).1
          (hx v (List.mem_cons_self v vs)).2).2 rv s1 hv
      have hx1 : ∀ x ∈ vs, valueWFb s1.gc.mem x = true ∧ valueLowb B x = true :=
        fun x hx' =>
          ⟨valueWFb_mono post1.kindPres (hx x (List.mem_cons_of_mem _ hx')).1,
            (hx x (List.mem_cons_of_mem _ hx')).2⟩
      cases hcs : cloneSlots (deepClone n) vs s1 with
      | ok y2 =>
        obtain ⟨rvs, s2⟩ := y2
        simp [hcs] at h
      | err e => simp [hcs] at h
      | stuck => simp [hcs] at h
      | outOfFuel =>
        exact ih s1 post1.wf hx1 (Nat.lt_of_le_of_lt post1.muLe hmu) hcs
    | err e => simp [hv] at h
    | stuck => simp [hv] at h
    | outOfFuel =>
      exact hterm v s hwf (hx v (List.mem_cons_self v vs)).1
        (hx v (List.mem_cons_self v vs)).2 hmu hv

theorem deepClone_no_fuel_out : ∀ (fuel B : Nat) (v : Value) (s : CloneSt),
    MemWF B s → valueWFb s.gc.mem v = true → valueLowb B v = true →
    mu B s < fuel → deepClone fuel v s ≠ .outOfFuel := by
  intro fuel
  induction fuel with
  | zero =>
    intro B v s _ _ _ hmu
    exact absurd hmu (Nat.not_lt_zero _)
  | succ n ih =>
    intro B v s hwf hv hl hmu
    by_cases hg : v.generation ≤ s.gc.gen
    · rw [deepClone_le n hg]
      exact fun h => Res.noConfusion h
    · cases v with
      | Int i => exact absurd (Nat.zero_le _) hg
      | Float x => exact absurd (Nat.zero_le _) hg
      | Function p =>
        rw [deepClone_fn n hg]
        exact fun h => Res.noConfusion h
      | Userdata p =>
        rw [deepClone_ud n hg]
        exact fun h => Res.noConfusion h
      | Thread p =>
        rw [deepClone_th n hg]
        exact fun h => Res.noConfusion h
      | String p =>
        rw [deepClone_str n hg]
        exact deepCloneStr_no_fuel p s
      | Data p =>
        rw [deepClone_data n hg]
        intro h
        rw [mapGc_outOfFuel] at h
        obtain ⟨t, fs, hmem⟩ := valueWFb_data hv
        have hpB : p.addr < B := of_decide_eq_true hl
        cases hvis : lookupVisited s.visited p.addr with
        | some w =>
          rw [deepCloneData] at h
          simp only [deepClonePtr, hvis] at h
          cases w <;> simp at h
        | none =>
          rw [deepCloneData_vacant hvis hmem] at h
          obtain ⟨hshell, hmus, hfs1⟩ := dataShell_prep hwf hpB hmem hvis
          cases hcs : cloneSlots (deepClone n) fs (dataShellSt p s t fs) with
          | ok y =>
            obtain ⟨nf, s2⟩ := y
            simp [hcs] at h
          | err e => simp [hcs] at h
          | stuck => simp [hcs] at h
          | outOfFuel =>
            exact cloneSlots_no_fuel_out (fun v' s' => ih B v' s') fs
              (dataShellSt p s t fs) hshell.wf hfs1 (by omega) hcs
      | Closure p =>
        rw [deepClone_closure n hg]
        intro h
        rw [mapGc_outOfFuel] at h
        obtain ⟨f, us, hmem⟩ := valueWFb_closure hv
        have hpB : p.addr < B := of_decide_eq_true hl
        cases hvis : lookupVisited s.visited p.addr with
        | some w =>
          rw [deepCloneClosure] at h
          simp only [deepClonePtr, hvis] at h
          cases w <;> simp at h
        | none =>
          rw [deepCloneClosure_vacant hvis hmem] at h
          obtain ⟨hshell, hmus, hfs1⟩ := closureShell_prep hwf hpB hmem hvis
          cases hcs : cloneSlots (deepClone n) us (closureShellSt p s f us) with
          | ok y =>
            obtain ⟨nf, s2⟩ := y
            simp [hcs] at h
          | err e => simp [hcs] at h
          | stuck => simp [hcs] at h
          | outOfFuel =>
            exact cloneSlots_no_fuel_out (fun v' s' => ih B v' s') us
              (closureShellSt p s f us) hshell.wf hfs1 (by omega) hcs
      | PartialApplication p =>
        rw [deepClone_app n hg]
        intro h
        rw [mapGc_outOfFuel] at h
        obtain ⟨c, vs, hmem⟩ := valueWFb_app hv
        have hpB : p.addr < B := of_decide_eq_true hl
        cases hvis : lookupVisited s.visited p.addr with
        | some w =>
          rw [deepCloneApp] at h
          simp only [deepClonePtr, hvis] at h
          cases w <;> simp at h
        | none =>
          rw [deepCloneApp_vacant hvis hmem] at h
          obtain ⟨hshell, hmus, hfs1⟩ := appShell_prep hwf hpB hmem hvis
          cases hcs : cloneSlots (deepClone n) vs (appShellSt p s c vs) with
          | ok y =>
            obtain ⟨nf, s2⟩ := y
            simp [hcs] at h
          | err e => simp [hcs] at h
          | stuck => simp [hcs] at h
          | outOfFuel =>
            exact cloneSlots_no_fuel_out (fun v' s' => ih B v' s') vs
              (appShellSt p s c vs) hshell.wf hfs1 (by omega) hcs

/-! ## A value transitively containing an uncloneable kind (through
generations above the target) can never be cloned successfully -/

theorem settled_not_bad {B : Nat} {s s' : CloneSt}
    (hwf : MemWF B s)
    (allProc : ∀ a, (lookupVisited s'.visited a).isSome = true → processed s' a)
    (memAgree : ∀ a, a < B → lookupMem s'.gc.mem a = lookupMem s.gc.mem a)
    (hgen : s'.gc.gen = s.gc.gen) :
    ∀ w, BadChain s.gc.mem s.gc.gen w → valueLowb B w = true →
      settled s' w → False := by
  intro w hbad
  induction hbad with
  | fn p hp =>
    intro hlow hset
    rcases hset with h | ⟨a, ha, _⟩
    · rw [hgen] at h
      exact absurd h (Nat.not_le.mpr hp)
    · cases ha
  | ud p hp =>
    intro hlow hset
    rcases hset with h | ⟨a, ha, _⟩
    · rw [hgen] at h
      exact absurd h (Nat.not_le.mpr hp)
    · cases ha
  | th p hp =>
    intro hlow hset
    rcases hset with h | ⟨a, ha, _⟩
    · rw [hgen] at h
      exact absurd h (Nat.not_le.mpr hp)
    · cases ha
  | viaData p t fs x hp hmem hxmem hbadx ih =>
    intro hlow hset
    rcases hset with h | ⟨a, ha, hsome⟩
    · rw [hgen] at h
      exact absurd h (Nat.not_le.mpr hp)
    · simp only [cloneableAddr] at ha
      injection ha with ha'
      subst ha'
      have hpB : p.addr < B := of_decide_eq_true hlow
      have hmem' : lookupMem s'.gc.mem p.addr = some (.dataStruct t fs) := by
        rw [memAgree p.addr hpB]
        exact hmem
      have hsetx := allProc p.addr hsome _ hmem' x hxmem
      have hxlow : valueLowb B x = true :=
        hwf.2.2.2.1 (p.addr, .dataStruct t fs) (mem_of_lookupMem hmem) hpB x hxmem
      exact ih hxlow hsetx
  | viaClosure p f us x hp hmem hxmem hbadx ih =>
    intro hlow hset
    rcases hset with h | ⟨a, ha, hsome⟩
    · rw [hgen] at h
      exact absurd h (Nat.not_le.mpr hp)
    · simp only [cloneableAddr] at ha
      injection ha with ha'
      subst ha'
      have hpB : p.addr < B := of_decide_eq_true hlow
      have hmem' : lookupMem s'.gc.mem p.addr = some (.closureData f us) := by
        rw [memAgree p.addr hpB]
        exact hmem
      have hsetx := allProc p.addr hsome _ hmem' x hxmem
      have hxlow : valueLowb B x = true :=
        hwf.2.2.2.1 (p.addr, .closureData f us) (mem_of_lookupMem hmem) hpB x hxmem
      exact ih hxlow hsetx
  | viaApp p c vs x hp hmem hxmem hbadx ih =>
    intro hlow hset
    rcases hset with h | ⟨a, ha, hsome⟩
    · rw [hgen] at h
      exact absurd h (Nat.not_le.mpr hp)
    · simp only [cloneableAddr] at ha
      injection ha with ha'
      subst ha'
      have hpB : p.addr < B := of_decide_eq_true hlow
      have hmem' : lookupMem s'.gc.mem p.addr = some (.appData c vs) := by
        rw [memAgree p.addr hpB]
        exact hmem
      have hsetx := allProc p.addr hsome _ hmem' x hxmem
      have hxlow : valueLowb B x = true :=
        hwf.2.2.2.1 (p.addr, .appData c vs) (mem_of_lookupMem hmem) hpB x hxmem
      exact ih hxlow hsetx

theorem badChain_gen {m : Mem} {g : Nat} {v : Value}
    (hbad : BadChain m g v) : g < v.generation := by
  cases hbad with
  | fn p hp => exact hp
  | ud p hp => exact hp
  | th p hp => exact hp
  | viaData p t fs x hp _ _ _ => exact hp
  | viaClosure p f us x hp _ _ _ => exact hp
  | viaApp p c vs x hp _ _ _ => exact hp

theorem deepClone_badchain_no_ok {B fuel : Nat} {v : Value} {s : CloneSt}
    (hwf : MemWF B s) (hv : valueWFb s.gc.mem v = true)
    (hl : valueLowb B v = true) (hemp : s.visited = [])
    (hbad : BadChain s.gc.mem s.gc.gen v) :
    ∀ r s', deepClone fuel v s ≠ .ok (r, s') := by
  intro r s' hok
  obtain ⟨post, newp, hwfr, hreg⟩ :=
    (deepClone_mspec fuel B v s hwf hv hl).2 r s' hok
  have allProc : ∀ a, (lookupVisited s'.visited a).isSome = true →
      processed s' a := by
    intro a ha
    apply newp a _ ha
    rw [hemp]
    rfl
  have hgv : s.gc.gen < v.generation := badChain_gen hbad
  have hsv : settled s' v := by
    rw [Reg, if_neg (Nat.not_le.mpr hgv)] at hreg
    obtain ⟨a, ha, hlk, _⟩ := hreg
    refine Or.inr ⟨a, ha, ?_⟩
    rw [hlk]
    rfl
  exact settled_not_bad hwf allProc (fun a haB => post.memLow a haB) post.genEq
    v hbad hl hsv

/-! ## Determinism through the visited map: a second occurrence of the
same source pointer resolves to the previously produced value -/

theorem deepClone_hit_det {B fuel : Nat} {v : Value} {s : CloneSt} {a : Addr}
    {w : Value} (hwf : MemWF B s) (hv : valueWFb s.gc.mem v = true)
    (hg : ¬ v.generation ≤ s.gc.gen) (ha : cloneableAddr v = some a)
    (hvis : lookupVisited s.visited a = some w) :
    deepClone (fuel + 1) v s = .ok (w, s) := by
  cases v with
  | Int i => cases ha
  | Float x => cases ha
  | Function p => cases ha
  | Userdata p => cases ha
  | Thread p => cases ha
  | String p =>
    simp only [cloneableAddr] at ha
    injection ha with ha'
    subst ha'
    rw [deepClone_str fuel hg, deepCloneStr_hit hvis]
  | Data p =>
    simp only [cloneableAddr] at ha
    injection ha with ha'
    subst ha'
    have hentry := hwf.2.2.2.2.2 (p.addr, w) (mem_of_lookupVisited hvis)
    obtain ⟨o, ho, hmo⟩ := visitedEntryOk_match hentry
    obtain ⟨t, fs, hmem⟩ := valueWFb_data hv
    rw [hmem] at ho
    cases ho
    obtain ⟨q, rfl⟩ := variantMatchb_data hmo
    rw [deepClone_data fuel hg, deepCloneData_hit hvis]
    rfl
  | Closure p =>
    simp only [cloneableAddr] at ha
    injection ha with ha'
    subst ha'
    have hentry := hwf.2.2.2.2.2 (p.addr, w) (mem_of_lookupVisited hvis)
    obtain ⟨o, ho, hmo⟩ := visitedEntryOk_match hentry
    obtain ⟨f, us, hmem⟩ := valueWFb_closure hv
    rw [hmem] at ho
    cases ho
    obtain ⟨q, rfl⟩ := variantMatchb_closure hmo
    rw [deepClone_closure fuel hg, deepCloneClosure_hit hvis]
    rfl
  | PartialApplication p =>
    simp only [cloneableAddr] at ha
    injection ha with ha'
    subst ha'
    have hentry := hwf.2.2.2.2.2 (p.addr, w) (mem_of_lookupVisited hvis)
    obtain ⟨o, ho, hmo⟩ := visitedEntryOk_match hentry
    obtain ⟨c, vs, hmem⟩ := valueWFb_app hv
    rw [hmem] at ho
    cases ho
    obtain ⟨q, rfl⟩ := variantMatchb_app hmo
    rw [deepClone_app fuel hg, deepCloneApp_hit hvis]
    rfl

/-! ## Pairwise sharing along the patch loop -/

theorem slotsRel_post {B n : Nat} :
    ∀ {s : CloneSt} {l r : List Value} {s' : CloneSt},
      SlotsRel (deepClone n) s l r s' → MemWF B s →
      (∀ x ∈ l, valueWFb s.gc.mem x = true ∧ valueLowb B x = true) →
      StepPost B s s' := by
  intro s l r s' hrel
  induction hrel with
  | nil s =>
    intro hwf _
    exact StepPost.refl hwf
  | cons s v rv s1 vs rvs s2 hv hrel ih =>
    intro hwf hx
    obtain ⟨post1, _, _, _⟩ :=
      (deepClone_mspec n B v s hwf (hx v (List.mem_cons_self v vs)).1
        (hx v (List.mem_cons_self v vs)).2).2 rv s1 hv
    refine StepPost.trans post1 (ih post1.wf ?_)
    intro x hx'
    exact ⟨valueWFb_mono post1.kindPres (hx x (List.mem_cons_of_mem _ hx')).1,
      (hx x (List.mem_cons_of_mem _ hx')).2⟩

/-- A slot whose value is already at or below the target generation is
cloned to itself. -/
theorem slotsRel_le_id {B n : Nat} :
    ∀ {s : CloneSt} {l r : List Value} {s' : CloneSt},
      SlotsRel (deepClone n) s l r s' → MemWF B s →
      (∀ x ∈ l, valueWFb s.gc.mem x = true ∧ valueLowb B x = true) →
      ∀ (j : Nat) (x : Value), l.get? j = some x → x.generation ≤ s.gc.gen →
        r.get? j = some x := by
  intro s l r s' hrel
  induction hrel with
  | nil s =>
    intro _ _ j x hj
    simp at hj
  | cons s v rv s1 vs rvs s2 hv hrel ih =>
    intro hwf hx j x hj hgx
    obtain ⟨post1, _, _, _⟩ :=
      (deepClone_mspec n B v s hwf (hx v (List.mem_cons_self v vs)).1
        (hx v (List.mem_cons_self v vs)).2).2 rv s1 hv
    cases j with
    | zero =>
      rw [List.get?_cons_zero] at hj
      injection hj with hj'
      subst hj'
      cases n with
      | zero =>
        rw [deepClone_zero] at hv
        exact Res.noConfusion hv
      | succ m =>
        rw [deepClone_le m hgx] at hv
        rw [Res.ok.injEq, Prod.mk.injEq] at hv
        rw [List.get?_cons_zero, hv.1]
    | succ j' =>
      rw [List.get?_cons_succ] at hj
      rw [List.get?_cons_succ]
      refine ih post1.wf ?_ j' x hj ?_
      · intro y hy
        exact ⟨valueWFb_mono post1.kindPres (hx y (List.mem_cons_of_mem _ hy)).1,
          (hx y (List.mem_cons_of_mem _ hy)).2⟩
      · rw [post1.genEq]
        exact hgx

/-- A slot whose source pointer is already recorded in the visited map
resolves to the recorded value. -/
theorem slotsRel_hit_prop {B n : Nat} :
    ∀ {s : CloneSt} {l r : List Value} {s' : CloneSt},
      SlotsRel (deepClone n) s l r s' → MemWF B s →
      (∀ x ∈ l, valueWFb s.gc.mem x = true ∧ valueLowb B x = true) →
      ∀ (j : Nat) (x : Value) (a : Addr) (w₀ : Value), l.get? j = some x →
        cloneableAddr x = some a → ¬ x.generation ≤ s.gc.gen →
        lookupVisited s.visited a = some w₀ →
        r.get? j = some w₀ := by
  intro s l r s' hrel
  induction hrel with
  | nil s =>
    intro _ _ j x a w₀ hj
    simp at hj
  | cons s v rv s1 vs rvs s2 hv hrel ih =>
    intro hwf hx j x a w₀ hj hax hgx hvis
    obtain ⟨post1, _, _, _⟩ :=
      (deepClone_mspec n B v s hwf (hx v (List.mem_cons_self v vs)).1
        (hx v (List.mem_cons_self v vs)).2).2 rv s1 hv
    cases j with
    | zero =>
      rw [List.get?_cons_zero] at hj
      injection hj with hj'
      subst hj'
      cases n with
      | zero =>
        rw [deepClone_zero] at hv
        exact Res.noConfusion hv
      | succ m =>
        have hdet := @deepClone_hit_det B m v s a w₀ hwf
          (hx v (List.mem_cons_self v vs)).1 hgx hax hvis
        rw [hv, Res.ok.injEq, Prod.mk.injEq] at hdet
        rw [List.get?_cons_zero, hdet.1]
    | succ j' =>
      rw [List.get?_cons_succ] at hj
      rw [List.get?_cons_succ]
      refine ih post1.wf ?_ j' x a w₀ hj hax ?_ (post1.visMono a w₀ hvis)
      · intro y hy
        exact ⟨valueWFb_mono post1.kindPres (hx y (List.mem_cons_of_mem _ hy)).1,
          (hx y (List.mem_cons_of_mem _ hy)).2⟩
      · rw [post1.genEq]
        exact hgx

/-- Sharing preservation along the patch loop: two slots holding the
same source value receive the same cloned value. -/
theorem slotsRel_pairwise {B n : Nat} :
    ∀ {s : CloneSt} {l r : List Value} {s' : CloneSt},
      SlotsRel (deepClone n) s l r s' → MemWF B s →
      (∀ x ∈ l, valueWFb s.gc.mem x = true ∧ valueLowb B x = true) →
      ∀ (i j : Nat) (x : Value), l.get? i = some x → l.get? j = some x →
        r.get? i = r.get? j := by
  intro s l r s' hrel
  induction hrel with
  | nil s =>
    intro _ _ i j x hi
    simp at hi
  | cons s v rv s1 vs rvs s2 hv hrel ih =>
    intro hwf hx i j x hi hj
    obtain ⟨post1, _, _, hreg⟩ :=
      (deepClone_mspec n B v s hwf (hx v (List.mem_cons_self v vs)).1
        (hx v (List.mem_cons_self v vs)).2).2 rv s1 hv
    have hx1 : ∀ y ∈ vs, valueWFb s1.gc.mem y = true ∧ valueLowb B y = true :=
      fun y hy =>
        ⟨valueWFb_mono post1.kindPres (hx y (List.mem_cons_of_mem _ hy)).1,
          (hx y (List.mem_cons_of_mem _ hy)).2⟩
    cases i with
    | zero =>
      rw [List.get?_cons_zero] at hi
      injection hi with hi'
      subst hi'
      cases j with
      | zero => rfl
      | succ j' =>
        rw [List.get?_cons_succ] at hj
        rw [List.get?_cons_zero, List.get?_cons_succ]
        by_cases hg : v.generation ≤ s.gc.gen
        · rw [Reg, if_pos hg] at hreg
          rw [hreg]
          exact (slotsRel_le_id hrel post1.wf hx1 j' v hj
            (by rw [post1.genEq]; exact hg)).symm
        · rw [Reg, if_neg hg] at hreg
          obtain ⟨a, hav, hlk1, _⟩ := hreg
          exact (slotsRel_hit_prop hrel post1.wf hx1 j' v a rv hj hav
            (by rw [post1.genEq]; exact hg) hlk1).symm
    | succ i' =>
      cases j with
      | zero =>
        rw [List.get?_cons_zero] at hj
        injection hj with hj'
        subst hj'
        rw [List.get?_cons_succ] at hi
        rw [List.get?_cons_zero, List.get?_cons_succ]
        by_cases hg : v.generation ≤ s.gc.gen
        · rw [Reg, if_pos hg] at hreg
          rw [hreg]
          exact slotsRel_le_id hrel post1.wf hx1 i' v hi
            (by rw [post1.genEq]; exact hg)
        · rw [Reg, if_neg hg] at hreg
          obtain ⟨a, hav, hlk1, _⟩ := hreg
          exact slotsRel_hit_prop hrel post1.wf hx1 i' v a rv hi hav
            (by rw [post1.genEq]; exact hg) hlk1
      | succ j' =>
        rw [List.get?_cons_succ] at hi hj
        rw [List.get?_cons_succ, List.get?_cons_succ]
        exact ih post1.wf hx1 i' j' x hi hj

/-! ## Claim C2: uncloneable rejection (amended) -/

/-- C2 (amended). A `Function`, `Userdata` or `Thread` value whose
generation exceeds the target heap's generation makes `deep_clone`
return the uncloneable-kind error; every error `deep_clone` ever
returns is that error, propagating as an ordinary result through every
recursive step; and a `Data`, `Closure` or `PartialApplication`
transitively containing such a value through a chain of values whose
generations all exceed the target's (`BadChain`), starting from an
empty visited map, makes the whole `deep_clone` call fail with the same
error. -/
theorem c2_uncloneable_rejection :
    (∀ (fuel : Nat) (v : Value) (s : CloneSt) (p : GcPtr),
      (v = .Function p ∨ v = .Userdata p ∨ v = .Thread p) →
      s.gc.gen < v.generation →
      deepClone (fuel + 1) v s = .err uncloneableMsg) ∧
    (∀ (fuel : Nat) (v : Value) (s : CloneSt) (e : String),
      deepClone fuel v s = .err e → e = uncloneableMsg) ∧
    (∀ (B fuel : Nat) (v : Value) (s : CloneSt),
      MemWF B s → valueWFb s.gc.mem v = true → valueLowb B v = true →
      s.visited = [] → BadChain s.gc.mem s.gc.gen v → mu B s < fuel →
      deepClone fuel v s = .err uncloneableMsg) := by
  refine ⟨?_, deepClone_err, ?_⟩
  · intro fuel v s p hv hg
    rcases hv with rfl | rfl | rfl
    · exact deepClone_fn fuel (Nat.not_le.mpr hg)
    · exact deepClone_ud fuel (Nat.not_le.mpr hg)
    · exact deepClone_th fuel (Nat.not_le.mpr hg)
  · intro B fuel v s hwf hv hl hemp hbad hmu
    cases hres : deepClone fuel v s with
    | ok y =>
      obtain ⟨r, s'⟩ := y
      exact absurd hres (deepClone_badchain_no_ok hwf hv hl hemp hbad r s')
    | err e =>
      rw [deepClone_err fuel v s e hres]
    | stuck => exact absurd hres (deepClone_mspec fuel B v s hwf hv hl).1
    | outOfFuel =>
      exact absurd hres (deepClone_no_fuel_out fuel B v s hwf hv hl hmu)

/-- Witness for C2: a generation-1 aggregate holding a generation-1
native-function value, cloned into a generation-0 heap. -/
theorem c2_uncloneable_rejection_witness :
    MemWF 2 ⟨[], ⟨[(1, HeapObj.externFn),
      (0, HeapObj.dataStruct 1 [Value.Function ⟨1, 1⟩])], 0, 2⟩⟩ ∧
    mu 2 ⟨[], ⟨[(1, HeapObj.externFn),
      (0, HeapObj.dataStruct 1 [Value.Function ⟨1, 1⟩])], 0, 2⟩⟩ < 3 ∧
    deepClone 3 (Value.Data ⟨0, 1⟩) ⟨[], ⟨[(1, HeapObj.externFn),
      (0, HeapObj.dataStruct 1 [Value.Function ⟨1, 1⟩])], 0, 2⟩⟩ =
      .err uncloneableMsg ∧
    deepClone 1 (Value.Function ⟨1, 1⟩) ⟨[], ⟨[(1, HeapObj.externFn),
      (0, HeapObj.dataStruct 1 [Value.Function ⟨1, 1⟩])], 0, 2⟩⟩ =
      .err uncloneableMsg :=
  ⟨by decide, by decide,
    c2_uncloneable_rejection.2.2 2 3 (Value.Data ⟨0, 1⟩) _ (by decide) (by decide)
      (by decide) rfl
      (BadChain.viaData ⟨0, 1⟩ 1 [Value.Function ⟨1, 1⟩] (Value.Function ⟨1, 1⟩)
        (by decide) (by decide) (by decide)
        (BadChain.fn ⟨1, 1⟩ (by decide)))
      (by decide),
    c2_uncloneable_rejection.1 0 (Value.Function ⟨1, 1⟩) _ ⟨1, 1⟩ (Or.inl rfl)
      (by decide)⟩

/-! ## Claim C3: sharing preservation -/

/-- C3. Within one top-level `deep_clone` call (visited map empty at the
shared pointer), two slots of the source aggregate holding the same
source value — for heap variants, the same address — are mapped to the
same cloned value: the visited map is keyed by source address and a hit
returns the previously produced value. -/
theorem c3_sharing_preservation :
    ∀ (B fuel : Nat) (p : GcPtr) (s : CloneSt) (t : VMTag) (fs : List Value)
      (w : Value) (s' : CloneSt) (i j : Nat) (x : Value),
      MemWF B s → valueWFb s.gc.mem (.Data p) = true →
      valueLowb B (.Data p) = true → s.gc.gen < p.gen →
      lookupVisited s.visited p.addr = none →
      lookupMem s.gc.mem p.addr = some (.dataStruct t fs) →
      deepClone (fuel + 1) (.Data p) s = .ok (w, s') →
      fs.get? i = some x → fs.get? j = some x →
      ∃ nf, w = .Data ⟨s.gc.next, s.gc.gen⟩ ∧
        lookupMem s'.gc.mem s.gc.next = some (.dataStruct t nf) ∧
        nf.length = fs.length ∧ nf.get? i = nf.get? j := by
  intro B fuel p s t fs w s' i j x hwf hv hl hgen hvis hmem hok hi hj
  have hpB : p.addr < B := of_decide_eq_true hl
  have hg : ¬ (Value.Data p).generation ≤ s.gc.gen := Nat.not_le.mpr hgen
  rw [deepClone_data fuel hg] at hok
  obtain ⟨q, hq, rfl⟩ := mapGc_ok.1 hok
  rw [deepCloneData_vacant hvis hmem] at hq
  obtain ⟨hshell, hmus, hfs1⟩ := dataShell_prep hwf hpB hmem hvis
  cases hcs : cloneSlots (deepClone fuel) fs (dataShellSt p s t fs) with
  | ok y =>
    obtain ⟨nf, s2⟩ := y
    simp only [hcs, Res.ok.injEq, Prod.mk.injEq] at hq
    obtain ⟨hq1, hq2⟩ := hq
    subst hq1
    subst hq2
    have hrel := cloneSlots_ok_slotsRel hcs
    have hpair := slotsRel_pairwise hrel hshell.wf hfs1 i j x hi hj
    have hpost2 := slotsRel_post hrel hshell.wf hfs1
    have hshlk : lookupMem (dataShellSt p s t fs).gc.mem s.gc.next =
        some (HeapObj.dataStruct t fs) := by
      show lookupMem ((s.gc.next, HeapObj.dataStruct t fs) :: s.gc.mem)
        s.gc.next = _
      rw [lookupMem_cons, if_pos rfl]
    obtain ⟨o₂, ho₂, hk₂⟩ := hpost2.kindPres s.gc.next _ hshlk
    refine ⟨nf, rfl, ?_, hrel.length_eq, hpair⟩
    exact lookupMem_setMem_self _ _ _ _ ho₂
  | err e => simp [hcs] at hq
  | stuck => simp [hcs] at hq
  | outOfFuel => simp [hcs] at hq

/-- Witness for C3: an aggregate whose two fields share the same string
object; after the clone both result slots hold the same cloned
pointer. -/
theorem c3_sharing_preservation_witness :
    MemWF 2 ⟨[], ⟨[(1, HeapObj.str [97]),
      (0, HeapObj.dataStruct 5 [Value.String ⟨1, 1⟩, Value.String ⟨1, 1⟩])],
      0, 2⟩⟩ ∧
    deepClone 4 (Value.Data ⟨0, 1⟩) ⟨[], ⟨[(1, HeapObj.str [97]),
      (0, HeapObj.dataStruct 5 [Value.String ⟨1, 1⟩, Value.String ⟨1, 1⟩])],
      0, 2⟩⟩ =
      .ok (Value.Data ⟨2, 0⟩,
        ⟨[(1, Value.String ⟨3, 0⟩), (0, Value.Data ⟨2, 0⟩)],
          ⟨[(3, HeapObj.str [97]),
            (2, HeapObj.dataStruct 5 [Value.String ⟨3, 0⟩, Value.String ⟨3, 0⟩]),
            (1, HeapObj.str [97]),
            (0, HeapObj.dataStruct 5 [Value.String ⟨1, 1⟩, Value.String ⟨1, 1⟩])],
            0, 4⟩⟩) ∧
    (∃ nf, (Value.Data ⟨2, 0⟩ : Value) = .Data ⟨2, 0⟩ ∧
      lookupMem [(3, HeapObj.str [97]),
        (2, HeapObj.dataStruct 5 [Value.String ⟨3, 0⟩, Value.String ⟨3, 0⟩]),
        (1, HeapObj.str [97]),
        (0, HeapObj.dataStruct 5 [Value.String ⟨1, 1⟩, Value.String ⟨1, 1⟩])] 2 =
        some (.dataStruct 5 nf) ∧
      nf.length = 2 ∧ nf.get? 0 = nf.get? 1) := by
  refine ⟨by decide, by decide, ?_⟩
  have h := c3_sharing_preservation 2 3 ⟨0, 1⟩
    ⟨[], ⟨[(1, HeapObj.str [97]),
      (0, HeapObj.dataStruct 5 [Value.String ⟨1, 1⟩, Value.String ⟨1, 1⟩])],
      0, 2⟩⟩ 5 [Value.String ⟨1, 1⟩, Value.String ⟨1, 1⟩]
    (Value.Data ⟨2, 0⟩)
    ⟨[(1, Value.String ⟨3, 0⟩), (0, Value.Data ⟨2, 0⟩)],
      ⟨[(3, HeapObj.str [97]),
        (2, HeapObj.dataStruct 5 [Value.String ⟨3, 0⟩, Value.String ⟨3, 0⟩]),
        (1, HeapObj.str [97]),
        (0, HeapObj.dataStruct 5 [Value.String ⟨1, 1⟩, Value.String ⟨1, 1⟩])],
        0, 4⟩⟩ 0 1 (Value.String ⟨1, 1⟩)
    (by decide) (by decide) (by decide) (by decide) (by decide) (by decide)
    (by decide) (by decide) (by decide)
  obtain ⟨nf, h1, h2, h3, h4⟩ := h
  exact ⟨nf, rfl, h2, h3, h4⟩

/-! ## Claim C4: cycle termination -/

/-- C4. `deep_clone` terminates on every well-formed value graph: the
number of unvisited source addresses strictly decreases at each shell
allocation (the shell is registered in the visited map *before* the
field-wise recursion), so fuel exceeding that measure is never
exhausted; and cloning a concrete self-referential aggregate terminates
and produces a structurally cyclic clone (the clone's slot points back
at the clone itself). -/
theorem c4_cycle_termination :
    (∀ (fuel B : Nat) (v : Value) (s : CloneSt),
      MemWF B s → valueWFb s.gc.mem v = true → valueLowb B v = true →
      mu B s < fuel → deepClone fuel v s ≠ .outOfFuel) ∧
    deepClone 2 (Value.Data ⟨0, 1⟩)
      ⟨[], ⟨[(0, HeapObj.dataStruct 7 [Value.Data ⟨0, 1⟩])], 0, 1⟩⟩ =
      .ok (Value.Data ⟨1, 0⟩,
        ⟨[(0, Value.Data ⟨1, 0⟩)],
          ⟨[(1, HeapObj.dataStruct 7 [Value.Data ⟨1, 0⟩]),
            (0, HeapObj.dataStruct 7 [Value.Data ⟨0, 1⟩])], 0, 2⟩⟩) ∧
    lookupMem [(1, HeapObj.dataStruct 7 [Value.Data ⟨1, 0⟩]),
      (0, HeapObj.dataStruct 7 [Value.Data ⟨0, 1⟩])] 1 =
      some (HeapObj.dataStruct 7 [Value.Data ⟨1, 0⟩]) :=
  ⟨deepClone_no_fuel_out, by decide, by decide⟩

/-- Witness for C4 on the concrete cyclic graph. -/
theorem c4_cycle_termination_witness :
    MemWF 1 ⟨[], ⟨[(0, HeapObj.dataStruct 7 [Value.Data ⟨0, 1⟩])], 0, 1⟩⟩ ∧
    mu 1 ⟨[], ⟨[(0, HeapObj.dataStruct 7 [Value.Data ⟨0, 1⟩])], 0, 1⟩⟩ < 2 ∧
    deepClone 2 (Value.Data ⟨0, 1⟩)
      ⟨[], ⟨[(0, HeapObj.dataStruct 7 [Value.Data ⟨0, 1⟩])], 0, 1⟩⟩ ≠
      .outOfFuel :=
  ⟨by decide, by decide,
    c4_cycle_termination.1 2 1 (Value.Data ⟨0, 1⟩)
      ⟨[], ⟨[(0, HeapObj.dataStruct 7 [Value.Data ⟨0, 1⟩])], 0, 1⟩⟩
      (by decide) (by decide) (by decide) (by decide)⟩

/-! ## Claim C6: order preservation -/

theorem slotsRel_index {rec : Value → CloneSt → Res (Value × CloneSt)} :
    ∀ {s : CloneSt} {l r : List Value} {s' : CloneSt},
      SlotsRel rec s l r s' → ∀ (i : Nat) (x : Value), l.get? i = some x →
      ∃ rv s₁ s₂, r.get? i = some rv ∧ rec x s₁ = .ok (rv, s₂) := by
  intro s l r s' hrel
  induction hrel with
  | nil s =>
    intro i x hx
    rw [List.get?_nil] at hx
    exact Option.noConfusion hx
  | cons s v rv s1 vs rvs s2 hv hrel ih =>
    intro i x hx
    cases i with
    | zero =>
      rw [List.get?_cons_zero] at hx
      obtain rfl := Option.some.inj hx
      exact ⟨rv, s, s1, rfl, hv⟩
    | succ i' =>
      rw [List.get?_cons_succ] at hx
      obtain ⟨rv', s₁, s₂, h1, h2⟩ := ih i' x hx
      exact ⟨rv', s₁, s₂, by rw [List.get?_cons_succ]; exact h1, h2⟩

/-- C6. Slot order is source order, before and after a deep clone:
`Def::initialize` writes `elems` verbatim so `get_variant i` returns the
`i`-th constructor argument; `ClosureDataDef::initialize` and
`PartialApplicationDataDef::initialize` copy their slices verbatim; and
for each of the three aggregate kinds, a fresh (unvisited) clone runs
the field-patch loop `SlotsRel` — the `i`-th output slot is the clone of
the `i`-th source slot, in source order — writes the result list into
the shell, and keeps indexed access aligned: the output has the source's
length and every filled source index is a filled output index produced
by `deep_clone` of that very source slot. -/
theorem c6_order_preservation :
    (∀ (t : VMTag) (elems : List Value) (i : Nat),
      getVariant (Def.initObj (Def.mk t elems)) i = elems.get? i) ∧
    (∀ d : ClosureDataDef, ClosureDataDef.initObj d = HeapObj.closureData d.function d.upvars) ∧
    (∀ d : PartialApplicationDataDef, PartialApplicationDataDef.initObj d = HeapObj.appData d.function d.args) ∧
    (∀ (fuel : Nat) (p : GcPtr) (s : CloneSt) (t : VMTag) (fs : List Value)
        (w : Value) (s' : CloneSt),
      s.gc.gen < p.gen →
      lookupVisited s.visited p.addr = none →
      lookupMem s.gc.mem p.addr = some (.dataStruct t fs) →
      deepClone (fuel + 1) (.Data p) s = .ok (w, s') →
      ∃ nf s2, SlotsRel (deepClone fuel) (dataShellSt p s t fs) fs nf s2 ∧
        w = .Data ⟨s.gc.next, s.gc.gen⟩ ∧
        s' = patchSt s2 s.gc.next (.dataStruct t nf) ∧
        nf.length = fs.length ∧
        (∀ i, getVariant (HeapObj.dataStruct t nf) i = nf.get? i) ∧
        (∀ (i : Nat) (x : Value), fs.get? i = some x →
          ∃ rv s₁ s₂, nf.get? i = some rv ∧ deepClone fuel x s₁ = .ok (rv, s₂))) ∧
    (∀ (fuel : Nat) (p : GcPtr) (s : CloneSt) (f : GcPtr) (us : List Value)
        (w : Value) (s' : CloneSt),
      s.gc.gen < p.gen →
      lookupVisited s.visited p.addr = none →
      lookupMem s.gc.mem p.addr = some (.closureData f us) →
      deepClone (fuel + 1) (.Closure p) s = .ok (w, s') →
      ∃ nus s2, SlotsRel (deepClone fuel) (closureShellSt p s f us) us nus s2 ∧
        w = .Closure ⟨s.gc.next, s.gc.gen⟩ ∧
        s' = patchSt s2 s.gc.next (.closureData f nus) ∧
        nus.length = us.length ∧
        (∀ (i : Nat) (x : Value), us.get? i = some x →
          ∃ rv s₁ s₂, nus.get? i = some rv ∧ deepClone fuel x s₁ = .ok (rv, s₂))) ∧
    (∀ (fuel : Nat) (p : GcPtr) (s : CloneSt) (c : Callable) (vs : List Value)
        (w : Value) (s' : CloneSt),
      s.gc.gen < p.gen →
      lookupVisited s.visited p.addr = none →
      lookupMem s.gc.mem p.addr = some (.appData c vs) →
      deepClone (fuel + 1) (.PartialApplication p) s = .ok (w, s') →
      ∃ nvs s2, SlotsRel (deepClone fuel) (appShellSt p s c vs) vs nvs s2 ∧
        w = .PartialApplication ⟨s.gc.next, s.gc.gen⟩ ∧
        s' = patchSt s2 s.gc.next (.appData c nvs) ∧
        nvs.length = vs.length ∧
        (∀ (i : Nat) (x : Value), vs.get? i = some x →
          ∃ rv s₁ s₂, nvs.get? i = some rv ∧ deepClone fuel x s₁ = .ok (rv, s₂))) := by
  refine ⟨fun t elems i => rfl, fun d => rfl, fun d => rfl, ?_, ?_, ?_⟩
  · intro fuel p s t fs w s' hgen hvis hmem hok
    have hg : ¬ (Value.Data p).generation ≤ s.gc.gen := Nat.not_le.mpr hgen
    rw [deepClone_data fuel hg] at hok
    obtain ⟨q, hq, rfl⟩ := mapGc_ok.1 hok
    rw [deepCloneData_vacant hvis hmem] at hq
    cases hcs : cloneSlots (deepClone fuel) fs (dataShellSt p s t fs) with
    | ok y =>
      obtain ⟨nf, s2⟩ := y
      simp only [hcs, Res.ok.injEq, Prod.mk.injEq] at hq
      obtain ⟨hq1, hq2⟩ := hq
      subst hq1
      subst hq2
      have hrel := cloneSlots_ok_slotsRel hcs
      exact ⟨nf, s2, hrel, rfl, rfl, hrel.length_eq, fun i => rfl,
        slotsRel_index hrel⟩
    | err e => simp [hcs] at hq
    | stuck => simp [hcs] at hq
    | outOfFuel => simp [hcs] at hq
  · intro fuel p s f us w s' hgen hvis hmem hok
    have hg : ¬ (Value.Closure p).generation ≤ s.gc.gen := Nat.not_le.mpr hgen
    rw [deepClone_closure fuel hg] at hok
    obtain ⟨q, hq, rfl⟩ := mapGc_ok.1 hok
    rw [deepCloneClosure_vacant hvis hmem] at hq
    cases hcs : cloneSlots (deepClone fuel) us (closureShellSt p s f us) with
    | ok y =>
      obtain ⟨nus, s2⟩ := y
      simp only [hcs, Res.ok.injEq, Prod.mk.injEq] at hq
      obtain ⟨hq1, hq2⟩ := hq
      subst hq1
      subst hq2
      have hrel := cloneSlots_ok_slotsRel hcs
      exact ⟨nus, s2, hrel, rfl, rfl, hrel.length_eq, slotsRel_index hrel⟩
    | err e => simp [hcs] at hq
    | stuck => simp [hcs] at hq
    | outOfFuel => simp [hcs] at hq
  · intro fuel p s c vs w s' hgen hvis hmem hok
    have hg : ¬ (Value.PartialApplication p).generation ≤ s.gc.gen :=
      Nat.not_le.mpr hgen
    rw [deepClone_app fuel hg] at hok
    obtain ⟨q, hq, rfl⟩ := mapGc_ok.1 hok
    rw [deepCloneApp_vacant hvis hmem] at hq
    cases hcs : cloneSlots (deepClone fuel) vs (appShellSt p s c vs) with
    | ok y =>
      obtain ⟨nvs, s2⟩ := y
      simp only [hcs, Res.ok.injEq, Prod.mk.injEq] at hq
      obtain ⟨hq1, hq2⟩ := hq
      subst hq1
      subst hq2
      have hrel := cloneSlots_ok_slotsRel hcs
      exact ⟨nvs, s2, hrel, rfl, rfl, hrel.length_eq, slotsRel_index hrel⟩
    | err e => simp [hcs] at hq
    | stuck => simp [hcs] at hq
    | outOfFuel => simp [hcs] at hq

/-- Witness for C6: an aggregate built with fields `[1, 2, 3]` yields
them in that order by indexed access, and its deep clone satisfies the
order-preserving patch-loop relation. -/
theorem c6_order_preservation_witness :
    (getVariant (Def.initObj (Def.mk 2 [Value.Int 1, Value.Int 2, Value.Int 3])) 0 =
      [Value.Int 1, Value.Int 2, Value.Int 3].get? 0) ∧
    0 < 1 ∧
    deepClone 2 (Value.Data ⟨0, 1⟩)
      ⟨[], ⟨[(0, HeapObj.dataStruct 2 [Value.Int 1, Value.Int 2, Value.Int 3])],
        0, 1⟩⟩ =
      .ok (Value.Data ⟨1, 0⟩,
        ⟨[(0, Value.Data ⟨1, 0⟩)],
          ⟨[(1, HeapObj.dataStruct 2 [Value.Int 1, Value.Int 2, Value.Int 3]),
            (0, HeapObj.dataStruct 2 [Value.Int 1, Value.Int 2, Value.Int 3])],
            0, 2⟩⟩) ∧
    (∃ nf s2,
      SlotsRel (deepClone 1)
        (dataShellSt ⟨0, 1⟩
          ⟨[], ⟨[(0, HeapObj.dataStruct 2
            [Value.Int 1, Value.Int 2, Value.Int 3])], 0, 1⟩⟩
          2 [Value.Int 1, Value.Int 2, Value.Int 3])
        [Value.Int 1, Value.Int 2, Value.Int 3] nf s2 ∧
      (Value.Data ⟨1, 0⟩ : Value) = .Data ⟨1, 0⟩ ∧
      (⟨[(0, Value.Data ⟨1, 0⟩)],
        ⟨[(1, HeapObj.dataStruct 2 [Value.Int 1, Value.Int 2, Value.Int 3]),
          (0, HeapObj.dataStruct 2 [Value.Int 1, Value.Int 2, Value.Int 3])],
          0, 2⟩⟩ : CloneSt) = patchSt s2 1 (.dataStruct 2 nf) ∧
      nf.length = 3 ∧
      (∀ i, getVariant (HeapObj.dataStruct 2 nf) i = nf.get? i) ∧
      (∀ (i : Nat) (x : Value),
        [Value.Int 1, Value.Int 2, Value.Int 3].get? i = some x →
        ∃ rv s₁ s₂, nf.get? i = some rv ∧ deepClone 1 x s₁ = .ok (rv, s₂))) :=
  ⟨c6_order_preservation.1 2 [Value.Int 1, Value.Int 2, Value.Int 3] 0,
    by decide, by decide,
    c6_order_preservation.2.2.2.1 1 ⟨0, 1⟩
      ⟨[], ⟨[(0, HeapObj.dataStruct 2 [Value.Int 1, Value.Int 2, Value.Int 3])],
        0, 1⟩⟩ 2 [Value.Int 1, Value.Int 2, Value.Int 3]
      (Value.Data ⟨1, 0⟩)
      ⟨[(0, Value.Data ⟨1, 0⟩)],
        ⟨[(1, HeapObj.dataStruct 2 [Value.Int 1, Value.Int 2, Value.Int 3]),
          (0, HeapObj.dataStruct 2 [Value.Int 1, Value.Int 2, Value.Int 3])],
          0, 2⟩⟩
      (by decide) rfl (by decide) (by decide)⟩

/-! ## Claim C10: the visited-variant invariant -/

/-- C10. `MemWF` includes the visited-map variant invariant: every entry
keyed by the address of a data object (respectively string, closure,
application object) stores a value of the matching variant.  Under it,
`deep_clone` never reaches an impossible execution — `Res.stuck` models
exactly the `Ok(_) => unreachable!()` arms of `deep_clone_data`,
`deep_clone_closure` and `deep_clone_app` (and dangling dereferences) —
and the invariant is preserved by every successful call. -/
theorem c10_visited_variant_invariant :
    ∀ (B fuel : Nat) (v : Value) (s : CloneSt),
      MemWF B s → valueWFb s.gc.mem v = true → valueLowb B v = true →
      deepClone fuel v s ≠ .stuck ∧
      (∀ r s', deepClone fuel v s = .ok (r, s') → MemWF B s') :=
  fun B fuel v s hwf hv hl =>
    ⟨(deepClone_mspec fuel B v s hwf hv hl).1,
      fun r s' h => ((deepClone_mspec fuel B v s hwf hv hl).2 r s' h).1.wf⟩

/-- Witness for C10 on a concrete two-object heap. -/
theorem c10_visited_variant_invariant_witness :
    MemWF 2 ⟨[], ⟨[(1, HeapObj.str [104, 105]),
      (0, HeapObj.dataStruct 3 [Value.String ⟨1, 1⟩, Value.Int 9])], 0, 2⟩⟩ ∧
    deepClone 4 (Value.Data ⟨0, 1⟩) ⟨[], ⟨[(1, HeapObj.str [104, 105]),
      (0, HeapObj.dataStruct 3 [Value.String ⟨1, 1⟩, Value.Int 9])], 0, 2⟩⟩ ≠
      .stuck :=
  ⟨by decide,
    (c10_visited_variant_invariant 2 4 (Value.Data ⟨0, 1⟩)
      ⟨[], ⟨[(1, HeapObj.str [104, 105]),
        (0, HeapObj.dataStruct 3 [Value.String ⟨1, 1⟩, Value.Int 9])], 0, 2⟩⟩
      (by decide) (by decide) (by decide)).1⟩

end Gluon
